import Mathlib

/-!
# Word-cloud leaderboard of `backend/server.js`

A shallow embedding of `generateWordCloudLeaderboard` and its two geometry helpers
`getRotatedBBox` and `checkCollision`.

Modelling conventions.
* JavaScript numbers are exact rationals (`ℚ`); the one `NaN` the code can produce from
  well-formed input, a score read through `Object.prototype`, is `Score.nan`.
* The two geometry helpers are given twice: `getRotatedBBox` and `checkCollision` in exact
  arithmetic, as the layout uses them, and `getRotatedBBoxRounded` and
  `checkCollisionRounded`, where every arithmetic result passes through a rounding `fl`.
  The rounding of JavaScript is `roundDouble`, to the nearest double with ties to the even
  significand; its exponent range is unbounded, so overflow and subnormal numbers are
  outside the model. With the identity as rounding the rounded helpers are the exact ones.
* `scoreMap` is a plain object literal: its own properties are an association list in
  creation order, reads fall back to `Object.prototype`, and `Object.keys` lists
  array-index keys first.
* `Array.prototype.sort` is stable; it is modelled by stable insertion sort.
* The layout reads scores that are numbers (`RankedEntry`); a `scores` array that holds a
  `NaN` is outside the layout model, except for the font sizes of the field, which
  `fieldFontSizes` computes for such an array as well.
* `Math.random`, `Math.cos`, `Math.sin`, `Math.PI`, `String.prototype.toLowerCase` and
  the canvas text measurement are parameters, collected in `Env`.
-/

namespace WordCloud

/-! ## 1. Score aggregation (server.js lines 191-211) -/

/-- A value stored in `scoreMap`: a vote count or `NaN`. -/
inductive Score where
  | num (n : Nat)
  | nan
  deriving DecidableEq, Repr

/-- One element of the `scores` array, `{ name, score }`. -/
structure ScoreEntry where
  name : String
  score : Score
  deriving DecidableEq, Repr

/-- The own properties of `scoreMap`, in order of creation. -/
abbrev ScoreMap := List (String × Score)

/-- The property names of `Object.prototype`, which every `{}` inherits. -/
def objectPrototypeKeys : List String :=
  ["constructor", "__defineGetter__", "__defineSetter__", "hasOwnProperty",
   "__lookupGetter__", "__lookupSetter__", "isPrototypeOf", "propertyIsEnumerable",
   "toString", "valueOf", "__proto__", "toLocaleString"]

/-- The result of reading `scoreMap[k]`. -/
inductive Lookup where
  | undefined
  | own (s : Score)
  | inherited
  deriving DecidableEq, Repr

/-- The own value stored under `k`, if any. -/
def ownValue : ScoreMap → String → Option Score
  | [], _ => none
  | (k', v) :: m, k => if k' = k then some v else ownValue m k

/-- The read `scoreMap[k]`: an own property, else a member of `Object.prototype`, else
`undefined`. -/
def getProp (m : ScoreMap) (k : String) : Lookup :=
  match ownValue m k with
  | some s => Lookup.own s
  | none => if k ∈ objectPrototypeKeys then Lookup.inherited else Lookup.undefined

/-- Overwrite the value of the existing own property `k`, keeping its position. -/
def replaceOwn : ScoreMap → String → Score → ScoreMap
  | [], _, _ => []
  | (k', v') :: m, k, v => if k' = k then (k', v) :: m else (k', v') :: replaceOwn m k v

/-- The write `scoreMap[k] = v`. An existing own property is overwritten in place. The key
`__proto__` reaches the inherited setter, which ignores a value that is not an object.
Any other key becomes a new own property, created last. -/
def setProp (m : ScoreMap) (k : String) (v : Score) : ScoreMap :=
  match ownValue m k with
  | some _ => replaceOwn m k v
  | none => if k = "__proto__" then m else m ++ [(k, v)]

/-- The number that `scoreMap[k]++` stores: the old value plus one, where an inherited
function or object converts to `NaN`. -/
def increment : Lookup → Score
  | Lookup.own (Score.num n) => Score.num (n + 1)
  | Lookup.own Score.nan => Score.nan
  | Lookup.inherited => Score.nan
  | Lookup.undefined => Score.nan

/-- Step 1: `contacts.forEach(c => { scoreMap[c.name] = 0; })` on the empty object. -/
def initScores (contacts : List String) : ScoreMap :=
  contacts.foldl (fun m c => setProp m c (Score.num 0)) []

/-- The body of the vote loop for one `v.votedFor`. -/
def addVote (m : ScoreMap) (votedFor : String) : ScoreMap :=
  match getProp m votedFor with
  | Lookup.undefined => setProp m votedFor (Score.num 1)
  | found => setProp m votedFor (increment found)

/-- Step 2: `Object.values(votes).forEach(...)`. -/
def addVotes (m : ScoreMap) (votes : List String) : ScoreMap :=
  votes.foldl addVote m

/-- The value of a decimal digit character. -/
def digitValue (c : Char) : Option Nat :=
  if 48 ≤ c.toNat ∧ c.toNat ≤ 57 then some (c.toNat - 48) else none

/-- Read a list of decimal digits, most significant first, onto the accumulator. -/
def readDigits : List Char → Nat → Option Nat
  | [], acc => some acc
  | c :: cs, acc =>
    match digitValue c with
    | some d => readDigits cs (acc * 10 + d)
    | none => none

/-- The array index a property key denotes: the key is the canonical decimal form of an
integer from 0 to 2^32 - 2. -/
def arrayIndex (k : String) : Option Nat :=
  match k.data with
  | [] => none
  | [c] => digitValue c
  | c :: cs =>
    if c = '0' then none
    else
      match readDigits (c :: cs) 0 with
      | some n => if n < 4294967295 then some n else none
      | none => none

/-- The own properties whose key is an array index, paired with that index. -/
def indexProps : ScoreMap → List (Nat × String × Score)
  | [] => []
  | (k, v) :: m =>
    match arrayIndex k with
    | some i => (i, k, v) :: indexProps m
    | none => indexProps m

/-- The own properties whose key is not an array index. -/
def namedProps (m : ScoreMap) : ScoreMap :=
  m.filter (fun kv => (arrayIndex kv.1).isNone)

/-- The own properties in the order `Object.keys` reports them: array-index keys in
ascending numeric order, then the other keys in creation order. -/
def orderedProps (m : ScoreMap) : ScoreMap :=
  ((indexProps m).insertionSort (fun a b => a.1 ≤ b.1)).map (fun e => e.2) ++ namedProps m

/-- The array `Object.keys(scoreMap)`. -/
def objectKeys (m : ScoreMap) : List String :=
  (orderedProps m).map (fun kv => kv.1)

/-- The difference `a - b` of two scores; `none` is `NaN`. -/
def Score.sub : Score → Score → Option Int
  | Score.num a, Score.num b => some ((a : Int) - (b : Int))
  | _, _ => none

/-- The order test of a stable sort with comparator `cmp`: `a` stays in front of `b`
unless `cmp a b` is positive. A `NaN` result (`none`) counts as zero. -/
def staysBefore {α : Type} (cmp : α → α → Option Int) (a b : α) : Prop :=
  match cmp a b with
  | some d => d ≤ 0
  | none => True

instance staysBeforeDecidable {α : Type} (cmp : α → α → Option Int) :
    DecidableRel (staysBefore cmp) := fun a b => by
  unfold staysBefore
  cases cmp a b <;> infer_instance

/-- The method `Array.prototype.sort(cmp)`: a stable sort. For a consistent comparator every
stable sort returns this list. -/
def arraySort {α : Type} (cmp : α → α → Option Int) (l : List α) : List α :=
  l.insertionSort (staysBefore cmp)

/-- The comparator `(a, b) => b.score - a.score`. -/
def byScoreDesc (a b : ScoreEntry) : Option Int :=
  Score.sub b.score a.score

/-- The array `Object.keys(scoreMap).map(name => ({ name, score: scoreMap[name] }))`. -/
def scoreEntries (m : ScoreMap) : List ScoreEntry :=
  (orderedProps m).map (fun kv => ⟨kv.1, kv.2⟩)

/-- Steps 1 to 3: the `scores` array built from the contact names and the `votedFor`
fields of the recorded votes. -/
def buildScores (contacts votes : List String) : List ScoreEntry :=
  arraySort byScoreDesc (scoreEntries (addVotes (initScores contacts) votes))

/-- Record a label at its first appearance: a label already seen keeps its place. -/
def discover (seen : List String) (k : String) : List String :=
  if k ∈ seen then seen else seen ++ [k]

/-- Discovery order as the specification words it: the universe labels in input order,
followed by the event-only labels in order of first occurrence, each label once. -/
def discoveryOrder (contacts votes : List String) : List String :=
  (contacts ++ votes).foldl discover []

/-- The order in which `Object.keys` reports keys that were created in the order `ks`:
array-index keys by ascending index, then the other keys as created. -/
def keyOrder (ks : List String) : List String :=
  (ks.filter (fun k => (arrayIndex k).isSome)).insertionSort
      (fun a b => (arrayIndex a).getD 0 ≤ (arrayIndex b).getD 0)
    ++ ks.filter (fun k => (arrayIndex k).isNone)

/-! ## 2. Geometry helpers (server.js lines 162-185) -/

/-- The functions of the JavaScript runtime and of the canvas that the code calls. -/
structure Env where
  /-- The result of the `n`-th call of `Math.random()`. -/
  random : Nat → ℚ
  /-- The value `ctx.measureText(text).width` under the font of the given pixel size. -/
  measureText : Int → String → ℚ
  /-- The method `String.prototype.toLowerCase`. -/
  toLowerCase : String → String
  /-- The function `Math.cos`. -/
  cos : ℚ → ℚ
  /-- The function `Math.sin`. -/
  sin : ℚ → ℚ
  /-- The constant `Math.PI`. -/
  pi : ℚ

/-- A point `{ x, y }`. -/
structure Point where
  x : ℚ
  y : ℚ
  deriving DecidableEq, Repr

/-- An axis-aligned box `{ x1, y1, x2, y2 }`. -/
structure BBox where
  x1 : ℚ
  y1 : ℚ
  x2 : ℚ
  y2 : ℚ
  deriving DecidableEq, Repr

/-- The call `Math.min(...xs)` on a non-empty array: the code spreads the four corner
coordinates. The empty spread, which the code never makes, is given 0. -/
def mathMin : List ℚ → ℚ
  | [] => 0
  | a :: l => l.foldl min a

/-- The call `Math.max(...xs)` on a non-empty array: the code spreads the four corner
coordinates. The empty spread, which the code never makes, is given 0. -/
def mathMax : List ℚ → ℚ
  | [] => 0
  | a :: l => l.foldl max a

/-- The array `corners` of `getRotatedBBox`. -/
def corners (w h : ℚ) : List Point :=
  [⟨-w / 2, -h / 2⟩, ⟨w / 2, -h / 2⟩, ⟨w / 2, h / 2⟩, ⟨-w / 2, h / 2⟩]

/-- The array `rotated` of `getRotatedBBox`, for the given values of `cos` and `sin`. -/
def rotate (x y cos sin : ℚ) (cs : List Point) : List Point :=
  cs.map (fun p => ⟨x + (p.x * cos - p.y * sin), y + (p.x * sin + p.y * cos)⟩)

/-- The array `rotated` of `getRotatedBBox`. -/
def rotatedCorners (env : Env) (x y w h angleDeg : ℚ) : List Point :=
  let angleRad := (angleDeg * env.pi) / 180
  rotate x y (env.cos angleRad) (env.sin angleRad) (corners w h)

/-- The function `getRotatedBBox(x, y, w, h, angleDeg)`. -/
def getRotatedBBox (env : Env) (x y w h angleDeg : ℚ) : BBox :=
  let rotated := rotatedCorners env x y w h angleDeg
  let xs := rotated.map (fun p => p.x)
  let ys := rotated.map (fun p => p.y)
  { x1 := mathMin xs, y1 := mathMin ys, x2 := mathMax xs, y2 := mathMax ys }

/-- The box `c` of `checkCollision`: the candidate grown by `margin` on every side. -/
def expand (candidate : BBox) (margin : ℚ) : BBox :=
  { x1 := candidate.x1 - margin, y1 := candidate.y1 - margin,
    x2 := candidate.x2 + margin, y2 := candidate.y2 + margin }

/-- The condition of the `if` in the loop of `checkCollision`. -/
def hits (c p : BBox) : Bool :=
  !(decide (c.x2 < p.x1) || decide (c.x1 > p.x2) || decide (c.y2 < p.y1) || decide (c.y1 > p.y2))

/-- The function `checkCollision(candidate, placedBoxes, margin)`: the loop returns true at
the first placed box that the grown candidate is not separated from. The default value 5 of
`margin` is passed by the caller. -/
def checkCollision (candidate : BBox) (placedBoxes : List BBox) (margin : ℚ) : Bool :=
  let c := expand candidate margin
  placedBoxes.any (fun p => hits c p)

/-- Box `a` lies entirely to the left of, to the right of, above or below box `b`: the
negation of the test in `checkCollision`. -/
def separatedFrom (a b : BBox) : Prop :=
  a.x2 < b.x1 ∨ a.x1 > b.x2 ∨ a.y2 < b.y1 ∨ a.y1 > b.y2

instance separatedFromDecidable (a b : BBox) : Decidable (separatedFrom a b) := by
  unfold separatedFrom
  infer_instance

/-- The point `(px, py)` lies in the closed box `b`. -/
def containsPoint (b : BBox) (px py : ℚ) : Prop :=
  b.x1 ≤ px ∧ px ≤ b.x2 ∧ b.y1 ≤ py ∧ py ≤ b.y2

instance containsPointDecidable (b : BBox) (px py : ℚ) : Decidable (containsPoint b px py) := by
  unfold containsPoint
  infer_instance

/-- A runtime for concrete evaluations: seven cycling random draws, every glyph half as wide
as the font size, lower-casing of the letters `A` to `Z`, and a cosine and sine that are
exact at 0 and take the values of a quarter turn elsewhere. -/
def sampleEnv : Env :=
  { random := fun n => ((n % 7 : Nat) : ℚ) / 7
    measureText := fun size text => (size : ℚ) * (text.length : ℚ) / 2
    toLowerCase := fun t => String.mk (t.data.map Char.toLower)
    cos := fun a => if a = 0 then 1 else 0
    sin := fun a => if a = 0 then 0 else 1
    pi := 355 / 113 }

/-- The box lies on the canvas with a 20 pixel border: `20 ≤ x1 ≤ x2 ≤ 1980` and
`20 ≤ y1 ≤ y2 ≤ 1980`. -/
def inCanvas (b : BBox) : Prop :=
  20 ≤ b.x1 ∧ b.x1 ≤ b.x2 ∧ b.x2 ≤ 1980 ∧ 20 ≤ b.y1 ∧ b.y1 ≤ b.y2 ∧ b.y2 ≤ 1980

instance inCanvasDecidable (b : BBox) : Decidable (inCanvas b) := by
  unfold inCanvas
  infer_instance

/-! ## 3. Sizes and colours of the field (server.js lines 252-296) -/

/-- An element of `scores` whose score is a number, as the layout reads it. -/
structure RankedEntry where
  name : String
  score : Nat
  deriving DecidableEq, Repr

/-- An element of the `items` array. -/
structure Item where
  text : String
  size : Int
  width : ℚ
  height : ℚ
  color : Option String
  deriving DecidableEq, Repr

/-- The palette `WORD_CLOUD_COLORS`. -/
def WORD_CLOUD_COLORS : List String :=
  ["#E91E63", "#F06292", "#EC407A", "#D81B60", "#FF5252",
   "#FF1744", "#C2185B", "#AD1457", "#F48FB1", "#FF80AB",
   "#AAAAAA", "#CCCCCC", "#999999", "#DDDDDD", "#FFFFFF"]

/-- The array `greys`. -/
def greys : List String := ["#888888", "#AAAAAA", "#CCCCCC", "#666666"]

/-- The read `arr[i]` of an array of strings; `none` is `undefined`. -/
def arrayGet (arr : List String) (i : Int) : Option String :=
  if i < 0 then none else arr.get? i.toNat

/-- The value `(maxScore - minScore) || 1`. -/
def scoreRangeOf (maxScore minScore : ℚ) : ℚ :=
  if maxScore - minScore = 0 then 1 else maxScore - minScore

/-- The value `(item.score - minScore) / scoreRange`. -/
def normalizedOf (score minScore scoreRange : ℚ) : ℚ :=
  (score - minScore) / scoreRange

/-- The value `Math.floor(22 + (normalized * 78))`. -/
def fontSizeOf (normalized : ℚ) : Int :=
  ⌊22 + normalized * 78⌋

/-- The font size the `items.map` callback computes for a score. -/
def fontSize (score minScore scoreRange : ℚ) : Int :=
  fontSizeOf (normalizedOf score minScore scoreRange)

/-- The callback of `others.map`, with the index of the next random draw. -/
def makeItem (env : Env) (minScore scoreRange : ℚ) (item : RankedEntry) (rng : Nat) : Item :=
  let size := fontSize item.score minScore scoreRange
  let label := env.toLowerCase item.name
  let color :=
    if item.score = 0 then arrayGet greys ⌊env.random rng * (greys.length : ℚ)⌋
    else arrayGet WORD_CLOUD_COLORS ⌊env.random rng * 10⌋
  { text := label, size := size, width := env.measureText size label,
    height := (size : ℚ) * (4 / 5), color := color }

/-- The array `others.map(...)`: each callback consumes one random draw. -/
def makeItems (env : Env) (minScore scoreRange : ℚ) : List RankedEntry → Nat → List Item
  | [], _ => []
  | item :: rest, rng =>
    makeItem env minScore scoreRange item rng :: makeItems env minScore scoreRange rest (rng + 1)

/-- The `items` array built by `others.map(...)`: `maxScore` and `minScore` are the scores
of the first and the last element of `others`. The code builds it only for a non-empty
`others`. -/
def fieldItems (env : Env) (others : List RankedEntry) : List Item :=
  match others with
  | [] => []
  | o :: os =>
    let maxScore : ℚ := (o.score : ℚ)
    let minScore : ℚ := (((o :: os).getLast (List.cons_ne_nil o os)).score : ℚ)
    let scoreRange := scoreRangeOf maxScore minScore
    makeItems env minScore scoreRange (o :: os) 0

/-- The comparator `(a, b) => b.size - a.size`. -/
def bySizeDesc (a b : Item) : Option Int :=
  some (b.size - a.size)

/-- The number a score is in the arithmetic of lines 259 to 269; `none` is `NaN`. -/
def Score.toRat : Score → Option ℚ
  | Score.num n => some (n : ℚ)
  | Score.nan => none

/-- The value `(maxScore - minScore) || 1` for scores that may be `NaN`: a difference that
is `NaN` is falsy, as 0 is. -/
def scoreRangeOfScores (maxScore minScore : Score) : ℚ :=
  match maxScore.toRat, minScore.toRat with
  | some a, some b => scoreRangeOf a b
  | _, _ => 1

/-- The value `fontSize` of the `others.map` callback for scores that may be `NaN`: the
floor of `NaN` is `NaN`, which is `none`. -/
def fontSizeOfScore (score minScore : Score) (scoreRange : ℚ) : Option Int :=
  match score.toRat, minScore.toRat with
  | some s, some m => some (fontSize s m scoreRange)
  | _, _ => none

/-- The values `fontSize` that `others.map(...)` computes for the elements of `others`, in
order, for scores that may be `NaN`. -/
def fieldFontSizes (others : List ScoreEntry) : List (Option Int) :=
  match others with
  | [] => []
  | o :: os =>
    let maxScore := o.score
    let minScore := ((o :: os).getLast (List.cons_ne_nil o os)).score
    let scoreRange := scoreRangeOfScores maxScore minScore
    (o :: os).map (fun item => fontSizeOfScore item.score minScore scoreRange)

/-- The font size of the winner, `winnerFontSize`. -/
def winnerFontSize : Int := 180

/-! ## 4. Placement (server.js lines 213-344) -/

/-- The canvas side `size`. -/
def canvasSize : ℚ := 2000

/-- The canvas centre `center = size / 2`. -/
def center : ℚ := canvasSize / 2

/-- The constant `spiralTightness`. -/
def spiralTightness : ℚ := 3 / 5

/-- The constant `startRadius`. -/
def startRadius : ℚ := 300

/-- The box pushed for the winner, from the measured width `wWidth`. -/
def winnerBox (wWidth : ℚ) : BBox :=
  let wHeight : ℚ := (winnerFontSize : ℚ) * (4 / 5)
  { x1 := center - wWidth / 2 - 30, y1 := center - wHeight / 2 - 30,
    x2 := center + wWidth / 2 + 30, y2 := center + wHeight / 2 + 30 }

/-- The outcome of the attempt loop for one item. -/
structure SpiralResult where
  /-- The accepted box, if an attempt was accepted. -/
  box : Option BBox
  /-- The index of the next random draw. -/
  rng : Nat
  /-- The number of loop iterations that ran. -/
  tries : Nat
  deriving DecidableEq, Repr

/-- The test `bbox.x1 < 20 || bbox.y1 < 20 || bbox.x2 > size - 20 || bbox.y2 > size - 20`. -/
def outOfCanvas (bbox : BBox) : Bool :=
  decide (bbox.x1 < 20) || decide (bbox.y1 < 20) || decide (bbox.x2 > canvasSize - 20)
    || decide (bbox.y2 > canvasSize - 20)

/-- The candidate of one attempt: position, rotation and box, with the index of the next
random draw. -/
structure Candidate where
  x : ℚ
  y : ℚ
  rotationDeg : ℚ
  bbox : BBox
  rng : Nat
  deriving DecidableEq, Repr

/-- The candidate computed in the loop body from the advanced `angle` and `radius`: four
random draws, and a fifth when the fourth exceeds 0.7. -/
def candidate (env : Env) (item : Item) (angle radius : ℚ) (rng : Nat) : Candidate :=
  let noiseAngle := angle + (env.random rng * (1 / 2) - 1 / 4)
  let scatter : ℚ := if item.size < 30 then 40 else 15
  let noiseRadius := radius + (env.random (rng + 1) * scatter - scatter / 2)
  let x := center + noiseRadius * env.cos noiseAngle
  let y := center + noiseRadius * env.sin noiseAngle
  let drawn := env.random (rng + 2) * 140 - 70
  let axis := decide (env.random (rng + 3) > 7 / 10)
  let rotationDeg : ℚ :=
    if axis then (if env.random (rng + 4) > 1 / 2 then 0 else 90) else drawn
  { x := x, y := y, rotationDeg := rotationDeg,
    bbox := getRotatedBBox env x y item.width item.height rotationDeg,
    rng := if axis then rng + 5 else rng + 4 }

/-- The loop `for (let i = 0; i < 800; i++)` with `fuel` iterations left, from the current
`angle`, `radius` and random index, having run `i` iterations. -/
def spiral (env : Env) (item : Item) (placedBoxes : List BBox) :
    Nat → ℚ → ℚ → Nat → Nat → SpiralResult
  | 0, _, _, rng, i => { box := none, rng := rng, tries := i }
  | fuel + 1, angle, radius, rng, i =>
    let angle := angle + 1 / 4
    let radius := radius + spiralTightness
    let c := candidate env item angle radius rng
    if outOfCanvas c.bbox then spiral env item placedBoxes fuel angle radius c.rng (i + 1)
    else if !checkCollision c.bbox placedBoxes 5 then
      { box := some c.bbox, rng := c.rng, tries := i + 1 }
    else spiral env item placedBoxes fuel angle radius c.rng (i + 1)

/-- The two tests of the loop body taken together: the candidate is pushed when its box is
not out of the canvas and `checkCollision(bbox, placedBoxes, 5)` is false. -/
def accepted (placedBoxes : List BBox) (c : Candidate) : Bool :=
  !outOfCanvas c.bbox && !checkCollision c.bbox placedBoxes 5

/-- The candidates of `fuel` successive loop iterations, as the loop body computes them when
no iteration ends the loop: each one advances `angle` and `radius` and starts at the random
index the one before left. -/
def candidates (env : Env) (item : Item) : Nat → ℚ → ℚ → Nat → List Candidate
  | 0, _, _, _ => []
  | fuel + 1, angle, radius, rng =>
    let angle := angle + 1 / 4
    let radius := radius + spiralTightness
    let c := candidate env item angle radius rng
    c :: candidates env item fuel angle radius c.rng

/-- A field item of font size 22 with one glyph of 11 pixels. -/
def smallItem : Item :=
  { text := "x", size := 22, width := 11, height := 88 / 5, color := none }

/-- A field item of font size 22 whose text measures 3000 pixels, wider than the canvas. -/
def wideItem : Item :=
  { text := "x", size := 22, width := 3000, height := 88 / 5, color := none }

/-- The state a render pass threads through `items.forEach`. -/
structure PassState where
  /-- The array `placedBoxes`. -/
  placedBoxes : List BBox
  /-- The index of the next random draw. -/
  rng : Nat
  /-- The total number of attempt-loop iterations so far. -/
  attempts : Nat
  deriving DecidableEq, Repr

/-- The callback of `items.forEach`: run the attempt loop and push the accepted box. -/
def placeItem (env : Env) (st : PassState) (item : Item) : PassState :=
  let r := spiral env item st.placedBoxes 800 0 startRadius st.rng 0
  match r.box with
  | some bbox =>
    { placedBoxes := st.placedBoxes ++ [bbox], rng := r.rng, attempts := st.attempts + r.tries }
  | none => { placedBoxes := st.placedBoxes, rng := r.rng, attempts := st.attempts + r.tries }

/-- The layout part of `generateWordCloudLeaderboard` on the array `scores`: the final
`placedBoxes`, with the random draws and attempts used. -/
def renderPass (env : Env) (scores : List RankedEntry) : PassState :=
  match scores with
  | [] => { placedBoxes := [], rng := 0, attempts := 0 }
  | winner :: others =>
    let wText := env.toLowerCase winner.name
    let wWidth := env.measureText winnerFontSize wText
    let placedBoxes := [winnerBox wWidth]
    match others with
    | [] => { placedBoxes := placedBoxes, rng := 0, attempts := 0 }
    | o :: os =>
      (arraySort bySizeDesc (fieldItems env (o :: os))).foldl (placeItem env)
        { placedBoxes := placedBoxes, rng := (o :: os).length, attempts := 0 }

/-- The numeric reading of a score; `none` for `NaN`. -/
def ScoreEntry.ranked (e : ScoreEntry) : Option RankedEntry :=
  match e.score with
  | Score.num n => some { name := e.name, score := n }
  | Score.nan => none

/-- The function `generateWordCloudLeaderboard` on the contact names and the `votedFor`
fields: the final `placedBoxes`. The layout is modelled when every score is a number;
`none` stands for a `scores` array that holds a `NaN`. -/
def generateWordCloudLeaderboard (env : Env) (contacts votes : List String) : Option PassState :=
  ((buildScores contacts votes).mapM ScoreEntry.ranked).map (renderPass env)

/-! ## 5. The geometry helpers in double arithmetic (server.js lines 162-185) -/

/-- The integer nearest to `r`; a number midway between two integers goes to the even
one. -/
def roundHalfEven (r : ℚ) : Int :=
  let n := ⌊r⌋
  if r - n < 1 / 2 then n
  else if 1 / 2 < r - n then n + 1
  else if n % 2 = 0 then n else n + 1

/-- The double nearest to a positive `q`. With `2^k ≤ q < 2^(k+1)` the doubles around `q`
are the multiples of `2^(k-52)`: the significand `q / 2^(k-52)` is rounded to an integer
from `2^52` to `2^53`. -/
def roundMagnitude (q : ℚ) : ℚ :=
  let e := Int.log 2 q - 52
  (roundHalfEven (q / (2 : ℚ) ^ e) : ℚ) * (2 : ℚ) ^ e

/-- The double nearest to `q`, the result of an arithmetic operation whose exact value is
`q`: round to nearest, ties to even, on the magnitude; the sign is kept. -/
def roundDouble (q : ℚ) : ℚ :=
  if 0 < q then roundMagnitude q else if q < 0 then -roundMagnitude (-q) else 0

/-- The array `corners` of `getRotatedBBox` when every arithmetic result is rounded by `fl`:
negation is exact, each of the quotients is rounded once. -/
def cornersRounded (fl : ℚ → ℚ) (w h : ℚ) : List Point :=
  [⟨fl (-w / 2), fl (-h / 2)⟩, ⟨fl (w / 2), fl (-h / 2)⟩,
    ⟨fl (w / 2), fl (h / 2)⟩, ⟨fl (-w / 2), fl (h / 2)⟩]

/-- The array `rotated` of `getRotatedBBox` for the given values of `cos` and `sin`, when
every product, difference and sum is rounded by `fl`. -/
def rotateRounded (fl : ℚ → ℚ) (x y cos sin : ℚ) (cs : List Point) : List Point :=
  cs.map (fun p =>
    ⟨fl (x + fl (fl (p.x * cos) - fl (p.y * sin))), fl (y + fl (fl (p.x * sin) + fl (p.y * cos)))⟩)

/-- The array `rotated` of `getRotatedBBox` when every arithmetic result is rounded by `fl`;
`Math.cos` and `Math.sin` return what the runtime returns. -/
def rotatedCornersRounded (fl : ℚ → ℚ) (env : Env) (x y w h angleDeg : ℚ) : List Point :=
  let angleRad := fl (fl (angleDeg * env.pi) / 180)
  rotateRounded fl x y (env.cos angleRad) (env.sin angleRad) (cornersRounded fl w h)

/-- The function `getRotatedBBox(x, y, w, h, angleDeg)` when every arithmetic result is
rounded by `fl`: `roundDouble` for the numbers of JavaScript, the identity for exact
arithmetic. `Math.min` and `Math.max` do not round. -/
def getRotatedBBoxRounded (fl : ℚ → ℚ) (env : Env) (x y w h angleDeg : ℚ) : BBox :=
  let rotated := rotatedCornersRounded fl env x y w h angleDeg
  let xs := rotated.map (fun p => p.x)
  let ys := rotated.map (fun p => p.y)
  { x1 := mathMin xs, y1 := mathMin ys, x2 := mathMax xs, y2 := mathMax ys }

/-- The box `c` of `checkCollision` when the two differences and the two sums are rounded
by `fl`. -/
def expandRounded (fl : ℚ → ℚ) (candidate : BBox) (margin : ℚ) : BBox :=
  { x1 := fl (candidate.x1 - margin), y1 := fl (candidate.y1 - margin),
    x2 := fl (candidate.x2 + margin), y2 := fl (candidate.y2 + margin) }

/-- The function `checkCollision(candidate, placedBoxes, margin)` when every arithmetic
result is rounded by `fl`; the comparisons do not round. -/
def checkCollisionRounded (fl : ℚ → ℚ) (candidate : BBox) (placedBoxes : List BBox)
    (margin : ℚ) : Bool :=
  let c := expandRounded fl candidate margin
  placedBoxes.any (fun p => hits c p)

/-! ## Theorems: score aggregation -/

theorem ownValue_eq_none_iff (m : ScoreMap) (k : String) :
    ownValue m k = none ↔ k ∉ m.map Prod.fst := by
  induction m with
  | nil => simp [ownValue]
  | cons kv m ih =>
    obtain ⟨k', v⟩ := kv
    by_cases h : k' = k
    · simp [ownValue, h]
    · have h' : ¬ k = k' := fun e => h e.symm
      simp [ownValue, h, h', ih]

theorem keys_replaceOwn (m : ScoreMap) (k : String) (v : Score) :
    (replaceOwn m k v).map Prod.fst = m.map Prod.fst := by
  induction m with
  | nil => simp [replaceOwn]
  | cons kv m ih =>
    obtain ⟨k', v'⟩ := kv
    by_cases h : k' = k
    · simp [replaceOwn, h]
    · simp [replaceOwn, h, ih]

theorem keys_setProp (m : ScoreMap) (k : String) (v : Score) (hk : k ≠ "__proto__") :
    (setProp m k v).map Prod.fst = discover (m.map Prod.fst) k := by
  unfold setProp discover
  cases h : ownValue m k with
  | none =>
    have hn := (ownValue_eq_none_iff m k).1 h
    simp only [hk, if_false, hn, List.map_append, List.map_cons, List.map_nil]
  | some s =>
    have hm : k ∈ m.map Prod.fst := by
      by_contra hc
      rw [(ownValue_eq_none_iff m k).2 hc] at h
      cases h
    simp only [hm, if_true, keys_replaceOwn]

theorem proto_mem_objectPrototypeKeys : "__proto__" ∈ objectPrototypeKeys := by decide

theorem keys_addVote (m : ScoreMap) (k : String) (hk : k ∉ objectPrototypeKeys) :
    (addVote m k).map Prod.fst = discover (m.map Prod.fst) k := by
  have hk' : k ≠ "__proto__" := fun e => hk (e ▸ proto_mem_objectPrototypeKeys)
  unfold addVote
  split <;> exact keys_setProp m k _ hk'

theorem keys_initScores_aux (cs : List String) (hcs : ∀ c ∈ cs, c ∉ objectPrototypeKeys) :
    ∀ m : ScoreMap, (cs.foldl (fun m c => setProp m c (Score.num 0)) m).map Prod.fst
      = cs.foldl discover (m.map Prod.fst) := by
  induction cs with
  | nil => intro m; rfl
  | cons c cs ih =>
    intro m
    have hc : c ≠ "__proto__" :=
      fun e => hcs c (List.mem_cons_self c cs) (e ▸ proto_mem_objectPrototypeKeys)
    simp only [List.foldl_cons]
    rw [ih (fun c' h' => hcs c' (List.mem_cons_of_mem c h')), keys_setProp m c _ hc]

theorem keys_addVotes_aux (vs : List String) (hvs : ∀ v ∈ vs, v ∉ objectPrototypeKeys) :
    ∀ m : ScoreMap, (addVotes m vs).map Prod.fst = vs.foldl discover (m.map Prod.fst) := by
  induction vs with
  | nil => intro m; rfl
  | cons v vs ih =>
    intro m
    simp only [addVotes, List.foldl_cons]
    have := ih (fun v' h' => hvs v' (List.mem_cons_of_mem v h')) (addVote m v)
    simp only [addVotes] at this
    rw [this, keys_addVote m v (hvs v (List.mem_cons_self v vs))]

/-- The own keys of the final `scoreMap` are the labels in discovery order, when no label
is a property name of `Object.prototype`. -/
theorem keys_scoreMap (contacts votes : List String)
    (h : ∀ l ∈ contacts ++ votes, l ∉ objectPrototypeKeys) :
    (addVotes (initScores contacts) votes).map Prod.fst = discoveryOrder contacts votes := by
  rw [keys_addVotes_aux votes (fun v hv => h v (List.mem_append_right _ hv)), initScores,
    keys_initScores_aux contacts (fun c hc => h c (List.mem_append_left _ hc))]
  simp [discoveryOrder, List.foldl_append]

theorem indexProps_keys (m : ScoreMap) :
    (indexProps m).map (fun e => e.2.1)
      = (m.map Prod.fst).filter (fun k => (arrayIndex k).isSome) := by
  induction m with
  | nil => rfl
  | cons kv m ih =>
    obtain ⟨k, v⟩ := kv
    cases h : arrayIndex k with
    | none => simp [indexProps, h, ih]
    | some i => simp [indexProps, h, ih]

theorem indexProps_index (m : ScoreMap) :
    ∀ e ∈ indexProps m, arrayIndex e.2.1 = some e.1 := by
  induction m with
  | nil => intro e he; simp [indexProps] at he
  | cons kv m ih =>
    obtain ⟨k, v⟩ := kv
    intro e he
    cases h : arrayIndex k with
    | none =>
      simp only [indexProps, h] at he
      exact ih e he
    | some i =>
      simp only [indexProps, h, List.mem_cons] at he
      rcases he with rfl | he
      · exact h
      · exact ih e he

/-- The array `Object.keys(scoreMap)` is the key order of the creation order. -/
theorem objectKeys_eq_keyOrder (m : ScoreMap) : objectKeys m = keyOrder (m.map Prod.fst) := by
  unfold objectKeys orderedProps keyOrder namedProps
  rw [List.map_append, List.map_map]
  congr 1
  · have := List.map_insertionSort (fun a b : Nat × String × Score => a.1 ≤ b.1)
      (fun a b : String => (arrayIndex a).getD 0 ≤ (arrayIndex b).getD 0)
      (fun e : Nat × String × Score => e.2.1) (indexProps m)
      (fun a ha b hb => by
        simp only [indexProps_index m a ha, indexProps_index m b hb, Option.getD_some])
    rw [← indexProps_keys]
    exact this
  · induction m with
    | nil => rfl
    | cons kv m ih =>
      obtain ⟨k, v⟩ := kv
      cases h : arrayIndex k <;> simp [List.filter_cons, h, ih]

theorem scoreEntries_names (m : ScoreMap) :
    (scoreEntries m).map ScoreEntry.name = objectKeys m := by
  simp [scoreEntries, objectKeys, List.map_map, Function.comp_def]

/-- Stability of the sort: the elements picked by a predicate whose members are pairwise in
order keep their relative order. -/
theorem filter_arraySort {α : Type} (cmp : α → α → Option Int) (p : α → Bool) (l : List α)
    (hp : ∀ a ∈ l, ∀ b ∈ l, p a = true → p b = true → staysBefore cmp a b) :
    (arraySort cmp l).filter p = l.filter p := by
  have hpw : (l.filter p).Pairwise (staysBefore cmp) := by
    apply List.pairwise_of_forall_mem_list
    intro a ha b hb
    rw [List.mem_filter] at ha hb
    exact hp a ha.1 b hb.1 ha.2 hb.2
  have h1 : List.Sublist (l.filter p) (arraySort cmp l) :=
    List.sublist_insertionSort hpw (List.filter_sublist l)
  have h2 : List.Sublist (l.filter p) ((arraySort cmp l).filter p) := by
    have := h1.filter p
    simpa only [List.filter_filter, Bool.and_self] using this
  have h3 : ((arraySort cmp l).filter p).length = (l.filter p).length :=
    ((List.perm_insertionSort (staysBefore cmp) l).filter p).length_eq
  exact (h2.eq_of_length h3.symm).symm

theorem staysBefore_of_score_eq (a b : ScoreEntry) (h : a.score = b.score) :
    staysBefore byScoreDesc a b := by
  unfold staysBefore byScoreDesc
  rw [h]
  cases b.score <;> simp [Score.sub]

theorem mem_foldl_discover (ls : List String) :
    ∀ (seen : List String) (k : String), k ∈ ls.foldl discover seen → k ∈ seen ∨ k ∈ ls := by
  induction ls with
  | nil => intro seen k hk; exact Or.inl hk
  | cons l ls ih =>
    intro seen k hk
    simp only [List.foldl_cons] at hk
    rcases ih (discover seen l) k hk with h | h
    · unfold discover at h
      split at h
      · exact Or.inl h
      · rcases List.mem_append.1 h with h | h
        · exact Or.inl h
        · exact Or.inr (by simp only [List.mem_singleton] at h; simp [h])
    · exact Or.inr (List.mem_cons_of_mem l h)

theorem keyOrder_eq_self (ks : List String) (h : ∀ k ∈ ks, arrayIndex k = none) :
    keyOrder ks = ks := by
  have h1 : ks.filter (fun k => (arrayIndex k).isSome) = [] := by
    rw [List.filter_eq_nil_iff]
    intro k hk
    simp [h k hk]
  have h2 : ks.filter (fun k => (arrayIndex k).isNone) = ks := by
    rw [List.filter_eq_self]
    intro k hk
    simp [h k hk]
  simp [keyOrder, h1, h2]

/-- The names of the `scores` entries that carry a given score, in the order they appear, are
a subsequence of `Object.keys(scoreMap)`. -/
theorem ties_sublist_objectKeys (contacts votes : List String) (s : Score) :
    List.Sublist
      (((buildScores contacts votes).filter (fun e => decide (e.score = s))).map ScoreEntry.name)
      (objectKeys (addVotes (initScores contacts) votes)) := by
  unfold buildScores
  rw [filter_arraySort, ← scoreEntries_names]
  · exact (List.filter_sublist _).map _
  · intro a _ b _ ha hb
    simp only [decide_eq_true_eq] at ha hb
    exact staysBefore_of_score_eq a b (ha.trans hb.symm)

theorem mem_of_ownValue (m : ScoreMap) (k : String) (s : Score) (h : ownValue m k = some s) :
    (k, s) ∈ m := by
  induction m with
  | nil => simp [ownValue] at h
  | cons kv m ih =>
    obtain ⟨k', v⟩ := kv
    by_cases hk : k' = k
    · simp only [ownValue, hk, if_true, Option.some.injEq] at h
      rw [hk, h]
      exact List.mem_cons_self _ _
    · simp only [ownValue, hk, if_false] at h
      exact List.mem_cons_of_mem _ (ih h)

theorem num_replaceOwn (m : ScoreMap) (k : String) (n : Nat)
    (hm : ∀ kv ∈ m, ∃ j, kv.2 = Score.num j) :
    ∀ kv ∈ replaceOwn m k (Score.num n), ∃ j, kv.2 = Score.num j := by
  induction m with
  | nil => intro kv h; simp [replaceOwn] at h
  | cons kv' m ih =>
    obtain ⟨k', v'⟩ := kv'
    intro kv h
    by_cases hk : k' = k
    · simp only [replaceOwn, hk, if_true, List.mem_cons] at h
      rcases h with rfl | h
      · exact ⟨n, rfl⟩
      · exact hm kv (List.mem_cons_of_mem _ h)
    · simp only [replaceOwn, hk, if_false, List.mem_cons] at h
      rcases h with rfl | h
      · exact hm _ (List.mem_cons_self _ _)
      · exact ih (fun kv hkv => hm kv (List.mem_cons_of_mem _ hkv)) kv h

theorem num_setProp (m : ScoreMap) (k : String) (n : Nat)
    (hm : ∀ kv ∈ m, ∃ j, kv.2 = Score.num j) :
    ∀ kv ∈ setProp m k (Score.num n), ∃ j, kv.2 = Score.num j := by
  unfold setProp
  cases h : ownValue m k with
  | some s => exact num_replaceOwn m k n hm
  | none =>
    simp only
    split_ifs
    · exact hm
    · intro kv hkv
      rcases List.mem_append.1 hkv with h' | h'
      · exact hm kv h'
      · simp only [List.mem_singleton] at h'
        exact ⟨n, by rw [h']⟩

theorem num_addVote (m : ScoreMap) (k : String) (hk : k ∉ objectPrototypeKeys)
    (hm : ∀ kv ∈ m, ∃ j, kv.2 = Score.num j) :
    ∀ kv ∈ addVote m k, ∃ j, kv.2 = Score.num j := by
  unfold addVote getProp
  cases h : ownValue m k with
  | some s =>
    obtain ⟨j, hj⟩ := hm _ (mem_of_ownValue m k s h)
    simp only at hj
    rw [hj]
    exact num_setProp m k (j + 1) hm
  | none =>
    simp only [hk, if_false]
    exact num_setProp m k 1 hm

/-- Every value of the final `scoreMap` is a vote count, when no label is a property name
of `Object.prototype`. -/
theorem num_scoreMap (contacts votes : List String)
    (h : ∀ l ∈ contacts ++ votes, l ∉ objectPrototypeKeys) :
    ∀ kv ∈ addVotes (initScores contacts) votes, ∃ j, kv.2 = Score.num j := by
  have hinit : ∀ (cs : List String) (m : ScoreMap), (∀ kv ∈ m, ∃ j, kv.2 = Score.num j) →
      ∀ kv ∈ cs.foldl (fun m c => setProp m c (Score.num 0)) m, ∃ j, kv.2 = Score.num j := by
    intro cs
    induction cs with
    | nil => intro m hm; exact hm
    | cons c cs ih => intro m hm; exact ih _ (num_setProp m c 0 hm)
  have hvotes : ∀ (vs : List String), (∀ v ∈ vs, v ∉ objectPrototypeKeys) →
      ∀ m : ScoreMap, (∀ kv ∈ m, ∃ j, kv.2 = Score.num j) →
      ∀ kv ∈ vs.foldl addVote m, ∃ j, kv.2 = Score.num j := by
    intro vs
    induction vs with
    | nil => intro _ m hm; exact hm
    | cons v vs ih =>
      intro hvs m hm
      exact ih (fun v' h' => hvs v' (List.mem_cons_of_mem v h')) _
        (num_addVote m v (hvs v (List.mem_cons_self v vs)) hm)
  exact hvotes votes (fun v hv => h v (List.mem_append_right _ hv)) _
    (hinit contacts [] (fun kv hkv => by simp at hkv))

theorem mem_of_mem_indexProps (m : ScoreMap) :
    ∀ e ∈ indexProps m, e.2 ∈ m := by
  induction m with
  | nil => intro e he; simp [indexProps] at he
  | cons kv m ih =>
    obtain ⟨k, v⟩ := kv
    intro e he
    cases h : arrayIndex k with
    | none =>
      simp only [indexProps, h] at he
      exact List.mem_cons_of_mem _ (ih e he)
    | some i =>
      simp only [indexProps, h, List.mem_cons] at he
      rcases he with rfl | he
      · exact List.mem_cons_self _ _
      · exact List.mem_cons_of_mem _ (ih e he)

theorem mem_of_mem_orderedProps (m : ScoreMap) : ∀ kv ∈ orderedProps m, kv ∈ m := by
  intro kv hkv
  unfold orderedProps namedProps at hkv
  rcases List.mem_append.1 hkv with h | h
  · obtain ⟨e, he, rfl⟩ := List.mem_map.1 h
    exact mem_of_mem_indexProps m e ((List.mem_insertionSort _).1 he)
  · exact (List.mem_filter.1 h).1

/-- The sort of lines 209 to 211 does its work when no label is a property name of
`Object.prototype`: every score of `scores` is a vote count, and the counts do not increase
along the array. -/
theorem buildScores_sorted (contacts votes : List String)
    (h : ∀ l ∈ contacts ++ votes, l ∉ objectPrototypeKeys) :
    (buildScores contacts votes).Pairwise
      (fun a b => ∃ i j : Nat, a.score = Score.num i ∧ b.score = Score.num j ∧ j ≤ i) := by
  have hnum : ∀ e ∈ scoreEntries (addVotes (initScores contacts) votes),
      ∃ j, e.score = Score.num j := by
    intro e he
    obtain ⟨kv, hkv, rfl⟩ := List.mem_map.1 he
    exact num_scoreMap contacts votes h kv (mem_of_mem_orderedProps _ kv hkv)
  obtain ⟨f, hf⟩ : ∃ f : ScoreEntry → Nat, ∀ e j, e.score = Score.num j → f e = j :=
    ⟨fun e => match e.score with
      | Score.num n => n
      | Score.nan => 0, fun e j he => by simp only [he]⟩
  have hrel : ∀ a ∈ scoreEntries (addVotes (initScores contacts) votes),
      ∀ b ∈ scoreEntries (addVotes (initScores contacts) votes),
        staysBefore byScoreDesc a b ↔ f a ≥ f b := by
    intro a ha b hb
    obtain ⟨i, hi⟩ := hnum a ha
    obtain ⟨j, hj⟩ := hnum b hb
    rw [hf a i hi, hf b j hj]
    simp only [staysBefore, byScoreDesc, hi, hj, Score.sub]
    omega
  have hmap := List.map_insertionSort (staysBefore byScoreDesc) (fun a b : Nat => a ≥ b) f
    (scoreEntries (addVotes (initScores contacts) votes)) hrel
  have hsorted : ((buildScores contacts votes).map f).Pairwise (fun a b : Nat => a ≥ b) := by
    unfold buildScores arraySort
    rw [hmap]
    exact List.sorted_insertionSort (fun a b : Nat => a ≥ b) _
  rw [List.pairwise_map] at hsorted
  refine hsorted.imp_of_mem ?_
  intro a b ha hb hab
  have ha' : a ∈ scoreEntries (addVotes (initScores contacts) votes) :=
    (List.mem_insertionSort _).1 ha
  have hb' : b ∈ scoreEntries (addVotes (initScores contacts) votes) :=
    (List.mem_insertionSort _).1 hb
  obtain ⟨i, hi⟩ := hnum a ha'
  obtain ⟨j, hj⟩ := hnum b hb'
  rw [hf a i hi, hf b j hj] at hab
  exact ⟨i, j, hi, hj, hab⟩

/-- C1, evaluated at a failing input. With the contacts `Alice` and `__proto__` and no votes
the `scores` array is `[{Alice, 0}]`: the universe label `__proto__` has no entry, and the
array has one element although the universe has two distinct labels. -/
theorem C1_scores_misses_proto_contact :
    buildScores ["Alice", "__proto__"] [] = [⟨"Alice", Score.num 0⟩]
      ∧ "__proto__" ∉ (buildScores ["Alice", "__proto__"] []).map ScoreEntry.name
      ∧ (buildScores ["Alice", "__proto__"] []).length = 1
      ∧ (discoveryOrder ["Alice", "__proto__"] []).length = 2 := by
  decide

/-- C2, evaluated at a failing input. One vote for the label `constructor`, which is not in
the universe, gives that label the score `NaN` instead of 1, and a second vote leaves it
`NaN`; the scenario of the claim, universe `[Alice, Bob]` with three votes for `Bob`,
evaluates to `[{Bob, 3}, {Alice, 0}]`. -/
theorem C2_vote_for_constructor_is_nan :
    buildScores [] ["constructor"] = [⟨"constructor", Score.nan⟩]
      ∧ buildScores [] ["constructor", "constructor"] = [⟨"constructor", Score.nan⟩]
      ∧ buildScores ["Alice", "Bob"] ["Bob", "Bob", "Bob"]
          = [⟨"Bob", Score.num 3⟩, ⟨"Alice", Score.num 0⟩] := by
  decide

/-- C7 fails as stated: with the contacts `Bob` and `7` (in this order) and no votes both
entries have score 0, yet `7` comes before `Bob` in `scores`, against discovery order. -/
theorem C7_counterexample_index_key_first :
    buildScores ["Bob", "7"] [] = [⟨"7", Score.num 0⟩, ⟨"Bob", Score.num 0⟩]
      ∧ discoveryOrder ["Bob", "7"] [] = ["Bob", "7"]
      ∧ ¬ List.Sublist
          (((buildScores ["Bob", "7"] []).filter
            (fun e => decide (e.score = Score.num 0))).map ScoreEntry.name)
          (discoveryOrder ["Bob", "7"] []) := by
  decide

/-- C7, amended. When no label is a property name of `Object.prototype`, the entries of
`scores` that have equal scores appear in the order of `Object.keys`: labels that are array
indices first, by ascending index, then the other labels in discovery order (universe labels
in input order, then event-only labels by first occurrence). When in addition no label is an
array index, entries with equal scores appear in discovery order. -/
theorem C7_ties_follow_key_order (contacts votes : List String)
    (h : ∀ l ∈ contacts ++ votes, l ∉ objectPrototypeKeys) :
    (∀ s : Score, List.Sublist
        (((buildScores contacts votes).filter (fun e => decide (e.score = s))).map
          ScoreEntry.name)
        (keyOrder (discoveryOrder contacts votes)))
      ∧ ((∀ l ∈ contacts ++ votes, arrayIndex l = none) →
          ∀ s : Score, List.Sublist
            (((buildScores contacts votes).filter (fun e => decide (e.score = s))).map
              ScoreEntry.name)
            (discoveryOrder contacts votes)) := by
  have key : ∀ s : Score, List.Sublist
      (((buildScores contacts votes).filter (fun e => decide (e.score = s))).map
        ScoreEntry.name)
      (keyOrder (discoveryOrder contacts votes)) := by
    intro s
    have := ties_sublist_objectKeys contacts votes s
    rwa [objectKeys_eq_keyOrder, keys_scoreMap contacts votes h] at this
  refine ⟨key, fun hidx s => ?_⟩
  have hself : keyOrder (discoveryOrder contacts votes) = discoveryOrder contacts votes := by
    apply keyOrder_eq_self
    intro k hk
    rcases mem_foldl_discover (contacts ++ votes) [] k hk with h' | h'
    · simp at h'
    · exact hidx k h'
  have := key s
  rwa [hself] at this

/-- C7 at the scenario of the claim: the universe `[Alice, Bob, Carol]` with no votes gives
`[{Alice, 0}, {Bob, 0}, {Carol, 0}]`, and the entries of score 0 are in discovery order. -/
theorem C7_witness_scenario_A :
    (∀ l ∈ ["Alice", "Bob", "Carol"] ++ [], l ∉ objectPrototypeKeys)
      ∧ buildScores ["Alice", "Bob", "Carol"] []
          = [⟨"Alice", Score.num 0⟩, ⟨"Bob", Score.num 0⟩, ⟨"Carol", Score.num 0⟩]
      ∧ List.Sublist
          (((buildScores ["Alice", "Bob", "Carol"] []).filter
            (fun e => decide (e.score = Score.num 0))).map ScoreEntry.name)
          (discoveryOrder ["Alice", "Bob", "Carol"] []) :=
  ⟨by decide, by decide,
    (C7_ties_follow_key_order ["Alice", "Bob", "Carol"] [] (by decide)).2 (by decide)
      (Score.num 0)⟩

/-! ## Theorems: geometry -/

theorem hits_eq_true_iff (c p : BBox) : hits c p = true ↔ ¬ separatedFrom c p := by
  simp only [hits, separatedFrom, Bool.not_eq_true', Bool.or_eq_false_iff, decide_eq_false_iff_not,
    not_or, and_assoc]

theorem checkCollision_eq_true_iff (candidate : BBox) (placedBoxes : List BBox) (margin : ℚ) :
    checkCollision candidate placedBoxes margin = true
      ↔ ∃ p ∈ placedBoxes, ¬ separatedFrom (expand candidate margin) p := by
  simp only [checkCollision, List.any_eq_true, hits_eq_true_iff]

theorem checkCollision_eq_false_iff (candidate : BBox) (placedBoxes : List BBox) (margin : ℚ) :
    checkCollision candidate placedBoxes margin = false
      ↔ ∀ p ∈ placedBoxes, separatedFrom (expand candidate margin) p := by
  rw [← Bool.not_eq_true, checkCollision_eq_true_iff]
  push_neg
  rfl

theorem separatedFrom_of_expand (a b : BBox) (margin : ℚ) (hm : 0 ≤ margin)
    (h : separatedFrom (expand a margin) b) : separatedFrom a b := by
  unfold separatedFrom expand at *
  simp only at h
  rcases h with h | h | h | h
  · exact Or.inl (by linarith)
  · exact Or.inr (Or.inl (by linarith))
  · exact Or.inr (Or.inr (Or.inl (by linarith)))
  · exact Or.inr (Or.inr (Or.inr (by linarith)))

theorem separatedFrom_symm (a b : BBox) (h : separatedFrom a b) : separatedFrom b a := by
  unfold separatedFrom at *
  rcases h with h | h | h | h
  · exact Or.inr (Or.inl h)
  · exact Or.inl h
  · exact Or.inr (Or.inr (Or.inr h))
  · exact Or.inr (Or.inr (Or.inl h))

theorem separatedFrom_expand_swap (a b : BBox) (margin : ℚ)
    (h : separatedFrom (expand a margin) b) : separatedFrom (expand b margin) a := by
  unfold separatedFrom expand at *
  simp only at h ⊢
  rcases h with h | h | h | h
  · exact Or.inr (Or.inl (by linarith))
  · exact Or.inl (by linarith)
  · exact Or.inr (Or.inr (Or.inr (by linarith)))
  · exact Or.inr (Or.inr (Or.inl (by linarith)))

theorem no_common_point_of_separatedFrom (a b : BBox) (h : separatedFrom a b) (px py : ℚ) :
    ¬ (containsPoint a px py ∧ containsPoint b px py) := by
  unfold separatedFrom at h
  unfold containsPoint
  rintro ⟨⟨h1, h2, h3, h4⟩, h5, h6, h7, h8⟩
  rcases h with h | h | h | h <;> linarith

theorem foldl_min_le (l : List ℚ) : ∀ a : ℚ, l.foldl min a ≤ a ∧ ∀ b ∈ l, l.foldl min a ≤ b := by
  induction l with
  | nil => intro a; simp
  | cons c l ih =>
    intro a
    obtain ⟨h1, h2⟩ := ih (min a c)
    refine ⟨h1.trans (min_le_left a c), fun b hb => ?_⟩
    rcases List.mem_cons.1 hb with rfl | hb
    · exact h1.trans (min_le_right a b)
    · exact h2 b hb

theorem foldl_min_mem (l : List ℚ) : ∀ a : ℚ, l.foldl min a = a ∨ l.foldl min a ∈ l := by
  induction l with
  | nil => intro a; exact Or.inl rfl
  | cons c l ih =>
    intro a
    simp only [List.foldl_cons, List.mem_cons]
    rcases ih (min a c) with h | h
    · rcases min_choice a c with h' | h'
      · exact Or.inl (h.trans h')
      · exact Or.inr (Or.inl (h.trans h'))
    · exact Or.inr (Or.inr h)

theorem le_foldl_max (l : List ℚ) : ∀ a : ℚ, a ≤ l.foldl max a ∧ ∀ b ∈ l, b ≤ l.foldl max a := by
  induction l with
  | nil => intro a; simp
  | cons c l ih =>
    intro a
    obtain ⟨h1, h2⟩ := ih (max a c)
    refine ⟨(le_max_left a c).trans h1, fun b hb => ?_⟩
    rcases List.mem_cons.1 hb with rfl | hb
    · exact (le_max_right a b).trans h1
    · exact h2 b hb

theorem foldl_max_mem (l : List ℚ) : ∀ a : ℚ, l.foldl max a = a ∨ l.foldl max a ∈ l := by
  induction l with
  | nil => intro a; exact Or.inl rfl
  | cons c l ih =>
    intro a
    simp only [List.foldl_cons, List.mem_cons]
    rcases ih (max a c) with h | h
    · rcases max_choice a c with h' | h'
      · exact Or.inl (h.trans h')
      · exact Or.inr (Or.inl (h.trans h'))
    · exact Or.inr (Or.inr h)

theorem mathMin_le (l : List ℚ) : ∀ a ∈ l, mathMin l ≤ a := by
  cases l with
  | nil => intro a ha; simp at ha
  | cons c l =>
    intro a ha
    rcases List.mem_cons.1 ha with rfl | ha
    · exact (foldl_min_le l a).1
    · exact (foldl_min_le l c).2 a ha

theorem mathMin_mem (l : List ℚ) (h : l ≠ []) : mathMin l ∈ l := by
  cases l with
  | nil => exact absurd rfl h
  | cons c l =>
    rcases foldl_min_mem l c with h' | h'
    · exact List.mem_cons.2 (Or.inl h')
    · exact List.mem_cons.2 (Or.inr h')

theorem le_mathMax (l : List ℚ) : ∀ a ∈ l, a ≤ mathMax l := by
  cases l with
  | nil => intro a ha; simp at ha
  | cons c l =>
    intro a ha
    rcases List.mem_cons.1 ha with rfl | ha
    · exact (le_foldl_max l a).1
    · exact (le_foldl_max l c).2 a ha

theorem mathMax_mem (l : List ℚ) (h : l ≠ []) : mathMax l ∈ l := by
  cases l with
  | nil => exact absurd rfl h
  | cons c l =>
    rcases foldl_max_mem l c with h' | h'
    · exact List.mem_cons.2 (Or.inl h')
    · exact List.mem_cons.2 (Or.inr h')

theorem rotatedCorners_ne_nil (env : Env) (x y w h angleDeg : ℚ) :
    rotatedCorners env x y w h angleDeg ≠ [] := by
  simp [rotatedCorners, rotate, corners]

/-- The box of `getRotatedBBox` has `x1 ≤ x2` and `y1 ≤ y2`. -/
theorem getRotatedBBox_ordered (env : Env) (x y w h angleDeg : ℚ) :
    (getRotatedBBox env x y w h angleDeg).x1 ≤ (getRotatedBBox env x y w h angleDeg).x2
      ∧ (getRotatedBBox env x y w h angleDeg).y1 ≤ (getRotatedBBox env x y w h angleDeg).y2 := by
  have hne := rotatedCorners_ne_nil env x y w h angleDeg
  obtain ⟨p, hp⟩ := List.exists_mem_of_ne_nil _ hne
  simp only [getRotatedBBox]
  constructor
  · exact (mathMin_le _ p.x (List.mem_map_of_mem _ hp)).trans
      (le_mathMax _ p.x (List.mem_map_of_mem _ hp))
  · exact (mathMin_le _ p.y (List.mem_map_of_mem _ hp)).trans
      (le_mathMax _ p.y (List.mem_map_of_mem _ hp))

theorem mathMin_eq (l : List ℚ) (m : ℚ) (hm : m ∈ l) (hle : ∀ a ∈ l, m ≤ a) :
    mathMin l = m :=
  le_antisymm (mathMin_le l m hm) (hle _ (mathMin_mem l (List.ne_nil_of_mem hm)))

theorem mathMax_eq (l : List ℚ) (m : ℚ) (hm : m ∈ l) (hle : ∀ a ∈ l, a ≤ m) :
    mathMax l = m :=
  le_antisymm (hle _ (mathMax_mem l (List.ne_nil_of_mem hm))) (le_mathMax l m hm)

/-- The extreme values of a list that holds exactly the four numbers `x ± a ± b`. -/
theorem extremes_of_four (x a b : ℚ) (l : List ℚ)
    (hmem : ∀ v, v ∈ l ↔
      v = x + (-a + b) ∨ v = x + (a + b) ∨ v = x + (a - b) ∨ v = x + (-a - b)) :
    mathMin l = x - (|a| + |b|) ∧ mathMax l = x + (|a| + |b|) := by
  have ha1 := le_abs_self a
  have ha2 := neg_abs_le a
  have hb1 := le_abs_self b
  have hb2 := neg_abs_le b
  constructor
  · apply mathMin_eq
    · rw [hmem]
      rcases abs_cases a with ⟨ha, _⟩ | ⟨ha, _⟩ <;> rcases abs_cases b with ⟨hb, _⟩ | ⟨hb, _⟩
        <;> rw [ha, hb]
      · exact Or.inr (Or.inr (Or.inr (by ring)))
      · exact Or.inl (by ring)
      · exact Or.inr (Or.inr (Or.inl (by ring)))
      · exact Or.inr (Or.inl (by ring))
    · intro v hv
      rcases (hmem v).1 hv with h | h | h | h <;> rw [h] <;> linarith
  · apply mathMax_eq
    · rw [hmem]
      rcases abs_cases a with ⟨ha, _⟩ | ⟨ha, _⟩ <;> rcases abs_cases b with ⟨hb, _⟩ | ⟨hb, _⟩
        <;> rw [ha, hb]
      · exact Or.inr (Or.inl (by ring))
      · exact Or.inr (Or.inr (Or.inl (by ring)))
      · exact Or.inl (by ring)
      · exact Or.inr (Or.inr (Or.inr (by ring)))
    · intro v hv
      rcases (hmem v).1 hv with h | h | h | h <;> rw [h] <;> linarith

theorem abs_half_mul (w c : ℚ) (hw : 0 ≤ w) : |w / 2 * c| = w * |c| / 2 := by
  rw [abs_mul, abs_of_nonneg (by linarith : (0 : ℚ) ≤ w / 2)]
  ring

theorem getRotatedBBox_x (env : Env) (x y w h angleDeg : ℚ) (hw : 0 ≤ w) (hh : 0 ≤ h) :
    (getRotatedBBox env x y w h angleDeg).x1
        = x - (w * |env.cos (angleDeg * env.pi / 180)|
            + h * |env.sin (angleDeg * env.pi / 180)|) / 2
      ∧ (getRotatedBBox env x y w h angleDeg).x2
        = x + (w * |env.cos (angleDeg * env.pi / 180)|
            + h * |env.sin (angleDeg * env.pi / 180)|) / 2 := by
  generalize hc : env.cos (angleDeg * env.pi / 180) = c
  generalize hs : env.sin (angleDeg * env.pi / 180) = s
  simp only [getRotatedBBox, rotatedCorners, rotate, corners, List.map, hc, hs]
  have key := extremes_of_four x (w / 2 * c) (h / 2 * s)
    [x + (-w / 2 * c - -h / 2 * s), x + (w / 2 * c - -h / 2 * s),
      x + (w / 2 * c - h / 2 * s), x + (-w / 2 * c - h / 2 * s)]
    (by
      intro v
      simp only [List.mem_cons, List.mem_nil_iff, or_false]
      rw [show x + (-w / 2 * c - -h / 2 * s) = x + (-(w / 2 * c) + h / 2 * s) by ring,
        show x + (w / 2 * c - -h / 2 * s) = x + (w / 2 * c + h / 2 * s) by ring,
        show x + (-w / 2 * c - h / 2 * s) = x + (-(w / 2 * c) - h / 2 * s) by ring])
  rw [abs_half_mul w c hw, abs_half_mul h s hh] at key
  rw [key.1, key.2]
  constructor <;> ring

theorem getRotatedBBox_y (env : Env) (x y w h angleDeg : ℚ) (hw : 0 ≤ w) (hh : 0 ≤ h) :
    (getRotatedBBox env x y w h angleDeg).y1
        = y - (w * |env.sin (angleDeg * env.pi / 180)|
            + h * |env.cos (angleDeg * env.pi / 180)|) / 2
      ∧ (getRotatedBBox env x y w h angleDeg).y2
        = y + (w * |env.sin (angleDeg * env.pi / 180)|
            + h * |env.cos (angleDeg * env.pi / 180)|) / 2 := by
  generalize hc : env.cos (angleDeg * env.pi / 180) = c
  generalize hs : env.sin (angleDeg * env.pi / 180) = s
  simp only [getRotatedBBox, rotatedCorners, rotate, corners, List.map, hc, hs]
  have key := extremes_of_four y (w / 2 * s) (h / 2 * c)
    [y + (-w / 2 * s + -h / 2 * c), y + (w / 2 * s + -h / 2 * c),
      y + (w / 2 * s + h / 2 * c), y + (-w / 2 * s + h / 2 * c)]
    (by
      intro v
      simp only [List.mem_cons, List.mem_nil_iff, or_false]
      rw [show y + (-w / 2 * s + -h / 2 * c) = y + (-(w / 2 * s) - h / 2 * c) by ring,
        show y + (w / 2 * s + -h / 2 * c) = y + (w / 2 * s - h / 2 * c) by ring,
        show y + (-w / 2 * s + h / 2 * c) = y + (-(w / 2 * s) + h / 2 * c) by ring]
      tauto)
  rw [abs_half_mul w s hw, abs_half_mul h c hh] at key
  rw [key.1, key.2]
  constructor <;> ring

/-! ## Theorems: rounding to the nearest double -/

theorem floor_le_roundHalfEven (r : ℚ) : ⌊r⌋ ≤ roundHalfEven r := by
  unfold roundHalfEven
  dsimp only
  split_ifs <;> omega

theorem roundHalfEven_le_floor_add_one (r : ℚ) : roundHalfEven r ≤ ⌊r⌋ + 1 := by
  unfold roundHalfEven
  dsimp only
  split_ifs <;> omega

theorem roundHalfEven_intCast (n : Int) : roundHalfEven (n : ℚ) = n := by
  unfold roundHalfEven
  simp

theorem roundHalfEven_mono : Monotone roundHalfEven := by
  intro r s hrs
  rcases (Int.floor_mono hrs).lt_or_eq with h | h
  · calc roundHalfEven r ≤ ⌊r⌋ + 1 := roundHalfEven_le_floor_add_one r
      _ ≤ ⌊s⌋ := h
      _ ≤ roundHalfEven s := floor_le_roundHalfEven s
  · unfold roundHalfEven
    dsimp only
    rw [h]
    split_ifs <;> first | omega | (exfalso; linarith)

theorem two_zpow_pos (k : Int) : (0 : ℚ) < (2 : ℚ) ^ k := zpow_pos (by norm_num) k

theorem two_zpow_split (k : Int) : (2 : ℚ) ^ k = (2 : ℚ) ^ (52 : Int) * (2 : ℚ) ^ (k - 52) := by
  rw [← zpow_add₀ (two_ne_zero)]
  congr 1
  ring

theorem log_two_spec (q : ℚ) (hq : 0 < q) :
    (2 : ℚ) ^ Int.log 2 q ≤ q ∧ q < (2 : ℚ) ^ (Int.log 2 q + 1) := by
  have h1 : ((2 : Nat) : ℚ) ^ Int.log 2 q ≤ q := Int.zpow_log_le_self (by norm_num) hq
  have h2 : q < ((2 : Nat) : ℚ) ^ (Int.log 2 q + 1) := Int.lt_zpow_succ_log_self (by norm_num) q
  simpa using And.intro h1 h2

theorem log_two_eq (q : ℚ) (k : Int) (h1 : (2 : ℚ) ^ k ≤ q) (h2 : q < (2 : ℚ) ^ (k + 1)) :
    Int.log 2 q = k := by
  have hq : 0 < q := lt_of_lt_of_le (two_zpow_pos k) h1
  have h1n : ((2 : Nat) : ℚ) ^ k ≤ q := by simpa using h1
  have h2n : q < ((2 : Nat) : ℚ) ^ (k + 1) := by simpa using h2
  have a := (Int.zpow_le_iff_le_log (by norm_num : 1 < 2) hq).1 h1n
  have b := (Int.lt_zpow_iff_log_lt (by norm_num : 1 < 2) hq).1 h2n
  omega

theorem roundMagnitude_eq (q : ℚ) (k : Int) (h1 : (2 : ℚ) ^ k ≤ q) (h2 : q < (2 : ℚ) ^ (k + 1)) :
    roundMagnitude q = (roundHalfEven (q / (2 : ℚ) ^ (k - 52)) : ℚ) * (2 : ℚ) ^ (k - 52) := by
  unfold roundMagnitude
  rw [log_two_eq q k h1 h2]

theorem two_pow_52_cast : (2 : ℚ) ^ (52 : Int) = ((4503599627370496 : Int) : ℚ) := by norm_num

theorem two_pow_53_cast : (2 : ℚ) ^ (52 : Int) * 2 = ((9007199254740992 : Int) : ℚ) := by norm_num

/-- The rounded significand of a number of the binade `[2^k, 2^(k+1))` lies between
`2^52` and `2^53`. -/
theorem significand_bounds (q : ℚ) (k : Int) (h1 : (2 : ℚ) ^ k ≤ q) (h2 : q < (2 : ℚ) ^ (k + 1)) :
    (2 : ℚ) ^ (52 : Int) ≤ (roundHalfEven (q / (2 : ℚ) ^ (k - 52)) : ℚ)
      ∧ (roundHalfEven (q / (2 : ℚ) ^ (k - 52)) : ℚ) ≤ (2 : ℚ) ^ (52 : Int) * 2 := by
  have he := two_zpow_pos (k - 52)
  have hlo : (2 : ℚ) ^ (52 : Int) ≤ q / (2 : ℚ) ^ (k - 52) := by
    rw [le_div_iff₀ he, ← two_zpow_split]
    exact h1
  have hhi : q / (2 : ℚ) ^ (k - 52) ≤ (2 : ℚ) ^ (52 : Int) * 2 := by
    rw [div_le_iff₀ he]
    have : (2 : ℚ) ^ (k + 1) = (2 : ℚ) ^ (52 : Int) * 2 * (2 : ℚ) ^ (k - 52) := by
      rw [zpow_add_one₀ two_ne_zero, two_zpow_split k]
      ring
    rw [← this]
    exact h2.le
  constructor
  · rw [two_pow_52_cast] at hlo ⊢
    have := roundHalfEven_mono hlo
    rw [roundHalfEven_intCast] at this
    exact_mod_cast this
  · rw [two_pow_53_cast] at hhi ⊢
    have := roundHalfEven_mono hhi
    rw [roundHalfEven_intCast] at this
    exact_mod_cast this

/-- Rounding keeps a positive number in the closure of its binade. -/
theorem roundMagnitude_bounds (q : ℚ) (hq : 0 < q) :
    (2 : ℚ) ^ Int.log 2 q ≤ roundMagnitude q
      ∧ roundMagnitude q ≤ (2 : ℚ) ^ (Int.log 2 q + 1) := by
  obtain ⟨h1, h2⟩ := log_two_spec q hq
  obtain ⟨hlo, hhi⟩ := significand_bounds q (Int.log 2 q) h1 h2
  have he := two_zpow_pos (Int.log 2 q - 52)
  unfold roundMagnitude
  dsimp only
  constructor
  · rw [two_zpow_split (Int.log 2 q)]
    exact mul_le_mul_of_nonneg_right hlo he.le
  · have : (2 : ℚ) ^ (Int.log 2 q + 1)
        = (2 : ℚ) ^ (52 : Int) * 2 * (2 : ℚ) ^ (Int.log 2 q - 52) := by
      rw [zpow_add_one₀ two_ne_zero, two_zpow_split (Int.log 2 q)]
      ring
    rw [this]
    exact mul_le_mul_of_nonneg_right hhi he.le

theorem roundMagnitude_pos (q : ℚ) (hq : 0 < q) : 0 < roundMagnitude q :=
  lt_of_lt_of_le (two_zpow_pos _) (roundMagnitude_bounds q hq).1

theorem roundMagnitude_mono (q r : ℚ) (hq : 0 < q) (hqr : q ≤ r) :
    roundMagnitude q ≤ roundMagnitude r := by
  have hr : 0 < r := lt_of_lt_of_le hq hqr
  have hlog : Int.log 2 q ≤ Int.log 2 r := Int.log_mono_right hq hqr
  rcases hlog.lt_or_eq with h | h
  · calc roundMagnitude q ≤ (2 : ℚ) ^ (Int.log 2 q + 1) := (roundMagnitude_bounds q hq).2
      _ ≤ (2 : ℚ) ^ Int.log 2 r := zpow_le_zpow_right₀ (by norm_num) h
      _ ≤ roundMagnitude r := (roundMagnitude_bounds r hr).1
  · unfold roundMagnitude
    dsimp only
    rw [h]
    have he := two_zpow_pos (Int.log 2 r - 52)
    apply mul_le_mul_of_nonneg_right _ he.le
    have : q / (2 : ℚ) ^ (Int.log 2 r - 52) ≤ r / (2 : ℚ) ^ (Int.log 2 r - 52) :=
      div_le_div_of_nonneg_right hqr he.le
    exact_mod_cast roundHalfEven_mono this

/-- Rounding to the nearest double preserves the order of the rationals. -/
theorem roundDouble_mono : Monotone roundDouble := by
  intro q r hqr
  unfold roundDouble
  by_cases hq : 0 < q
  · have hr : 0 < r := lt_of_lt_of_le hq hqr
    rw [if_pos hq, if_pos hr]
    exact roundMagnitude_mono q r hq hqr
  · rw [if_neg hq]
    by_cases hq' : q < 0
    · rw [if_pos hq']
      have hnq := roundMagnitude_pos (-q) (by linarith)
      by_cases hr : 0 < r
      · rw [if_pos hr]
        have := roundMagnitude_pos r hr
        linarith
      · rw [if_neg hr]
        by_cases hr' : r < 0
        · rw [if_pos hr']
          have := roundMagnitude_mono (-r) (-q) (by linarith) (by linarith)
          linarith
        · rw [if_neg hr']
          linarith
    · rw [if_neg hq']
      have hq0 : q = 0 := le_antisymm (not_lt.1 hq) (not_lt.1 hq')
      by_cases hr : 0 < r
      · rw [if_pos hr]
        exact (roundMagnitude_pos r hr).le
      · rw [if_neg hr]
        have : ¬ r < 0 := by
          intro h
          linarith
        rw [if_neg this]

theorem roundDouble_zero : roundDouble 0 = 0 := by
  simp [roundDouble]

theorem roundDouble_neg (q : ℚ) : roundDouble (-q) = -roundDouble q := by
  unfold roundDouble
  rcases lt_trichotomy q 0 with h | h | h
  · have h1 : ¬ 0 < q := not_lt.2 h.le
    have h2 : 0 < -q := by linarith
    rw [if_pos h2, if_neg h1, if_pos h, neg_neg]
  · subst h
    simp
  · have h1 : ¬ 0 < -q := by
      intro h'
      linarith
    have h2 : -q < 0 := by linarith
    have h3 : ¬ q < 0 := not_lt.2 h.le
    rw [if_neg h1, if_pos h2, neg_neg, if_pos h]

/-- A number `m * 2^(k-52)` with an integer `m` from `2^52` to `2^53 - 1` is a double. -/
theorem roundDouble_significand (m k : Int) (h1 : 4503599627370496 ≤ m)
    (h2 : m < 9007199254740992) :
    roundDouble ((m : ℚ) * (2 : ℚ) ^ (k - 52)) = (m : ℚ) * (2 : ℚ) ^ (k - 52) := by
  have he := two_zpow_pos (k - 52)
  have hm1 : (2 : ℚ) ^ (52 : Int) ≤ (m : ℚ) := by
    rw [two_pow_52_cast]
    exact_mod_cast h1
  have hm2 : (m : ℚ) < (2 : ℚ) ^ (52 : Int) * 2 := by
    rw [two_pow_53_cast]
    exact_mod_cast h2
  have hpos : 0 < (m : ℚ) * (2 : ℚ) ^ (k - 52) :=
    mul_pos (lt_of_lt_of_le (two_zpow_pos 52) hm1) he
  have hlo : (2 : ℚ) ^ k ≤ (m : ℚ) * (2 : ℚ) ^ (k - 52) := by
    rw [two_zpow_split k]
    exact mul_le_mul_of_nonneg_right hm1 he.le
  have hhi : (m : ℚ) * (2 : ℚ) ^ (k - 52) < (2 : ℚ) ^ (k + 1) := by
    have : (2 : ℚ) ^ (k + 1) = (2 : ℚ) ^ (52 : Int) * 2 * (2 : ℚ) ^ (k - 52) := by
      rw [zpow_add_one₀ two_ne_zero, two_zpow_split k]
      ring
    rw [this]
    exact mul_lt_mul_of_pos_right hm2 he
  unfold roundDouble
  rw [if_pos hpos, roundMagnitude_eq _ k hlo hhi, mul_div_assoc, div_self he.ne', mul_one,
    roundHalfEven_intCast]

theorem roundDouble_eq_self (q : ℚ) (m k : Int) (h1 : 4503599627370496 ≤ m)
    (h2 : m < 9007199254740992) (hq : q = (m : ℚ) * (2 : ℚ) ^ (k - 52)) : roundDouble q = q := by
  subst hq
  exact roundDouble_significand m k h1 h2

theorem roundDouble_neg_eq_self (q : ℚ) (m k : Int) (h1 : 4503599627370496 ≤ m)
    (h2 : m < 9007199254740992) (hq : q = (m : ℚ) * (2 : ℚ) ^ (k - 52)) :
    roundDouble (-q) = -q := by
  rw [roundDouble_neg, roundDouble_eq_self q m k h1 h2 hq]

theorem roundDouble_of_pos (q : ℚ) (k : Int) (h1 : (2 : ℚ) ^ k ≤ q) (h2 : q < (2 : ℚ) ^ (k + 1)) :
    roundDouble q = (roundHalfEven (q / (2 : ℚ) ^ (k - 52)) : ℚ) * (2 : ℚ) ^ (k - 52) := by
  have hq : 0 < q := lt_of_lt_of_le (two_zpow_pos k) h1
  unfold roundDouble
  rw [if_pos hq, roundMagnitude_eq q k h1 h2]

theorem roundHalfEven_tie (r : ℚ) (n : Int) (h : r = (n : ℚ) + 1 / 2) :
    roundHalfEven r = if n % 2 = 0 then n else n + 1 := by
  have hfl : ⌊r⌋ = n := by
    rw [Int.floor_eq_iff, h]
    constructor <;> linarith
  unfold roundHalfEven
  dsimp only
  rw [hfl, h]
  have h1 : ¬ ((n : ℚ) + 1 / 2 - (n : ℚ) < 1 / 2) := by
    intro h'
    linarith
  have h2 : ¬ ((1 : ℚ) / 2 < (n : ℚ) + 1 / 2 - (n : ℚ)) := by
    intro h'
    linarith
  rw [if_neg h1, if_neg h2]

theorem roundDouble_2p53_sub_one : roundDouble 9007199254740991 = 9007199254740991 :=
  roundDouble_eq_self _ 9007199254740991 52 (by norm_num) (by norm_num) (by norm_num)

theorem roundDouble_2p53 : roundDouble 9007199254740992 = 9007199254740992 :=
  roundDouble_eq_self _ 4503599627370496 53 (by norm_num) (by norm_num) (by norm_num)

theorem roundDouble_one : roundDouble 1 = 1 :=
  roundDouble_eq_self _ 4503599627370496 0 (by norm_num) (by norm_num) (by norm_num)

theorem roundDouble_two : roundDouble 2 = 2 :=
  roundDouble_eq_self _ 4503599627370496 1 (by norm_num) (by norm_num) (by norm_num)

theorem roundDouble_neg_one : roundDouble (-1) = -1 :=
  roundDouble_neg_eq_self _ 4503599627370496 0 (by norm_num) (by norm_num) (by norm_num)

/-- The integer `2^53 + 1` lies midway between the doubles `2^53` and `2^53 + 2` and rounds
to the one with the even significand. -/
theorem roundDouble_2p53_add_one : roundDouble 9007199254740993 = 9007199254740992 := by
  rw [roundDouble_of_pos _ 53 (by norm_num) (by norm_num),
    roundHalfEven_tie _ 4503599627370496 (by norm_num)]
  norm_num

/-- Every natural number below `2^53` is a double. -/
theorem roundDouble_natCast (n : Nat) (h : n < 9007199254740992) :
    roundDouble (n : ℚ) = (n : ℚ) := by
  rcases Nat.eq_zero_or_pos n with h0 | hpos
  · subst h0
    simpa using roundDouble_zero
  · have hq : (0 : ℚ) < (n : ℚ) := by exact_mod_cast hpos
    have hj : Nat.log 2 n < 53 := Nat.log_lt_of_lt_pow hpos.ne' (by norm_num; exact h)
    obtain ⟨d, hd⟩ : ∃ d : Nat, Nat.log 2 n + d = 52 := ⟨52 - Nat.log 2 n, by omega⟩
    have he : ((Nat.log 2 n : Nat) : Int) - 52 = -(d : Int) := by omega
    have hp : (0 : ℚ) < (2 : ℚ) ^ d := pow_pos (by norm_num) d
    unfold roundDouble
    rw [if_pos hq]
    unfold roundMagnitude
    dsimp only
    rw [Int.log_natCast, he, zpow_neg, zpow_natCast, div_inv_eq_mul]
    have hc : (n : ℚ) * (2 : ℚ) ^ d = (((n * 2 ^ d : Nat) : Int) : ℚ) := by
      push_cast
      ring
    rw [hc, roundHalfEven_intCast]
    push_cast
    field_simp

/-- Every integer of magnitude below `2^53` is a double. -/
theorem roundDouble_intCast (z : Int) (h1 : -9007199254740992 < z) (h2 : z < 9007199254740992) :
    roundDouble (z : ℚ) = (z : ℚ) := by
  rcases Int.eq_nat_or_neg z with ⟨n, rfl | rfl⟩
  · rw [Int.cast_natCast]
    exact roundDouble_natCast n (by omega)
  · rw [Int.cast_neg, Int.cast_natCast, roundDouble_neg, roundDouble_natCast n (by omega)]

/-! ## Theorems: the geometry helpers in double arithmetic -/

theorem rotatedCornersRounded_ne_nil (fl : ℚ → ℚ) (env : Env) (x y w h angleDeg : ℚ) :
    rotatedCornersRounded fl env x y w h angleDeg ≠ [] := by
  simp [rotatedCornersRounded, rotateRounded, cornersRounded]

/-- With the identity as rounding the rounded function is `getRotatedBBox`. -/
theorem getRotatedBBoxRounded_id (env : Env) (x y w h angleDeg : ℚ) :
    getRotatedBBoxRounded (fun q => q) env x y w h angleDeg = getRotatedBBox env x y w h angleDeg :=
  rfl

/-- With the identity as rounding the rounded function is `checkCollision`. -/
theorem checkCollisionRounded_id (candidate : BBox) (placedBoxes : List BBox) (margin : ℚ) :
    checkCollisionRounded (fun q => q) candidate placedBoxes margin
      = checkCollision candidate placedBoxes margin :=
  rfl

/-- The box of an unrotated rectangle: each bound is the rounded sum of the centre and the
half extent. -/
theorem getRotatedBBoxRounded_unrotated (fl : ℚ → ℚ) (env : Env) (x y w h : ℚ)
    (hw : 0 ≤ w) (hh : 0 ≤ h) (hmono : Monotone fl) (h0 : fl 0 = 0)
    (hw1 : fl (w / 2) = w / 2) (hw2 : fl (-w / 2) = -w / 2)
    (hh1 : fl (h / 2) = h / 2) (hh2 : fl (-h / 2) = -h / 2)
    (hcos : env.cos 0 = 1) (hsin : env.sin 0 = 0) :
    getRotatedBBoxRounded fl env x y w h 0
      = { x1 := fl (x - w / 2), y1 := fl (y - h / 2), x2 := fl (x + w / 2),
          y2 := fl (y + h / 2) } := by
  have hxl : fl (x - w / 2) ≤ fl (x + w / 2) := hmono (by linarith)
  have hyl : fl (y - h / 2) ≤ fl (y + h / 2) := hmono (by linarith)
  have ex : x + -w / 2 = x - w / 2 := by ring
  have ey : y + -h / 2 = y - h / 2 := by ring
  simp only [getRotatedBBoxRounded, rotatedCornersRounded, rotateRounded, cornersRounded,
    List.map, zero_mul, h0, zero_div, hcos, hsin, mul_one, mul_zero, sub_zero, zero_add,
    hw1, hw2, hh1, hh2, ex, ey]
  have m1 : mathMin [fl (x - w / 2), fl (x + w / 2), fl (x + w / 2), fl (x - w / 2)]
      = fl (x - w / 2) := by
    apply mathMin_eq
    · simp
    · intro a ha
      simp only [List.mem_cons, List.mem_nil_iff, or_false] at ha
      rcases ha with rfl | rfl | rfl | rfl <;> first | exact le_refl _ | exact hxl
  have m2 : mathMax [fl (x - w / 2), fl (x + w / 2), fl (x + w / 2), fl (x - w / 2)]
      = fl (x + w / 2) := by
    apply mathMax_eq
    · simp
    · intro a ha
      simp only [List.mem_cons, List.mem_nil_iff, or_false] at ha
      rcases ha with rfl | rfl | rfl | rfl <;> first | exact le_refl _ | exact hxl
  have m3 : mathMin [fl (y - h / 2), fl (y - h / 2), fl (y + h / 2), fl (y + h / 2)]
      = fl (y - h / 2) := by
    apply mathMin_eq
    · simp
    · intro a ha
      simp only [List.mem_cons, List.mem_nil_iff, or_false] at ha
      rcases ha with rfl | rfl | rfl | rfl <;> first | exact le_refl _ | exact hyl
  have m4 : mathMax [fl (y - h / 2), fl (y - h / 2), fl (y + h / 2), fl (y + h / 2)]
      = fl (y + h / 2) := by
    apply mathMax_eq
    · simp
    · intro a ha
      simp only [List.mem_cons, List.mem_nil_iff, or_false] at ha
      rcases ha with rfl | rfl | rfl | rfl <;> first | exact le_refl _ | exact hyl
  rw [m1, m2, m3, m4]

theorem checkCollisionRounded_eq_true_iff (fl : ℚ → ℚ) (candidate : BBox)
    (placedBoxes : List BBox) (margin : ℚ) :
    checkCollisionRounded fl candidate placedBoxes margin = true
      ↔ ∃ p ∈ placedBoxes, ¬ separatedFrom (expandRounded fl candidate margin) p := by
  simp only [checkCollisionRounded, List.any_eq_true, hits_eq_true_iff]

theorem checkCollisionRounded_eq_false_iff (fl : ℚ → ℚ) (candidate : BBox)
    (placedBoxes : List BBox) (margin : ℚ) :
    checkCollisionRounded fl candidate placedBoxes margin = false
      ↔ ∀ p ∈ placedBoxes, separatedFrom (expandRounded fl candidate margin) p := by
  rw [← Bool.not_eq_true, checkCollisionRounded_eq_true_iff]
  push_neg
  rfl

/-- A monotone rounding that fixes the coordinates of a box grows the box when it adds a
margin that is not negative. -/
theorem separatedFrom_of_expandRounded (fl : ℚ → ℚ) (hmono : Monotone fl) (a b : BBox)
    (margin : ℚ) (hm : 0 ≤ margin) (hx1 : fl a.x1 = a.x1) (hy1 : fl a.y1 = a.y1)
    (hx2 : fl a.x2 = a.x2) (hy2 : fl a.y2 = a.y2)
    (h : separatedFrom (expandRounded fl a margin) b) : separatedFrom a b := by
  have k1 : fl (a.x1 - margin) ≤ a.x1 := by
    have := hmono (show a.x1 - margin ≤ a.x1 by linarith)
    rwa [hx1] at this
  have k2 : fl (a.y1 - margin) ≤ a.y1 := by
    have := hmono (show a.y1 - margin ≤ a.y1 by linarith)
    rwa [hy1] at this
  have k3 : a.x2 ≤ fl (a.x2 + margin) := by
    have := hmono (show a.x2 ≤ a.x2 + margin by linarith)
    rwa [hx2] at this
  have k4 : a.y2 ≤ fl (a.y2 + margin) := by
    have := hmono (show a.y2 ≤ a.y2 + margin by linarith)
    rwa [hy2] at this
  unfold separatedFrom expandRounded at *
  simp only at h
  rcases h with h | h | h | h
  · exact Or.inl (by linarith)
  · exact Or.inr (Or.inl (by linarith))
  · exact Or.inr (Or.inr (Or.inl (by linarith)))
  · exact Or.inr (Or.inr (Or.inr (by linarith)))

/-- C9 fails as stated for the numbers of JavaScript: the test of one box against one other
box is not symmetric. The boxes `A = [201, 251 + 3/2^45] x [100, 110]` and
`B = [256 + 1/2^43, 306] x [100, 110]` have coordinates that are doubles and lie on the canvas.
With margin 5 the sum `A.x2 + 5` lies midway between two doubles and rounds up to `B.x1`, so
`checkCollision(A, [B], 5)` is true, while `B.x1 - 5` is exact and greater than `A.x2`, so
`checkCollision(B, [A], 5)` is false. In exact arithmetic the first test is false as well. -/
theorem C9_counterexample_asymmetric_pair :
    roundDouble (251 + 3 / 35184372088832) = 251 + 3 / 35184372088832
      ∧ roundDouble (256 + 1 / 8796093022208) = 256 + 1 / 8796093022208
      ∧ roundDouble (251 + 3 / 35184372088832 + 5) = 256 + 1 / 8796093022208
      ∧ checkCollisionRounded roundDouble
          ⟨201, 100, 251 + 3 / 35184372088832, 110⟩
          [⟨256 + 1 / 8796093022208, 100, 306, 110⟩] 5 = true
      ∧ checkCollisionRounded roundDouble
          ⟨256 + 1 / 8796093022208, 100, 306, 110⟩
          [⟨201, 100, 251 + 3 / 35184372088832, 110⟩] 5 = false
      ∧ checkCollision ⟨201, 100, 251 + 3 / 35184372088832, 110⟩
          [⟨256 + 1 / 8796093022208, 100, 306, 110⟩] 5 = false
      ∧ inCanvas ⟨201, 100, 251 + 3 / 35184372088832, 110⟩
      ∧ inCanvas ⟨256 + 1 / 8796093022208, 100, 306, 110⟩ := by
  have r196 : roundDouble ((201 : ℚ) - 5) = 196 := by
    have := roundDouble_intCast 196 (by norm_num) (by norm_num)
    norm_num at this ⊢
    exact this
  have r95 : roundDouble ((100 : ℚ) - 5) = 95 := by
    have := roundDouble_intCast 95 (by norm_num) (by norm_num)
    norm_num at this ⊢
    exact this
  have r115 : roundDouble ((110 : ℚ) + 5) = 115 := by
    have := roundDouble_intCast 115 (by norm_num) (by norm_num)
    norm_num at this ⊢
    exact this
  have r311 : roundDouble ((306 : ℚ) + 5) = 311 := by
    have := roundDouble_intCast 311 (by norm_num) (by norm_num)
    norm_num at this ⊢
    exact this
  have ra : roundDouble (251 + 3 / 35184372088832) = 251 + 3 / 35184372088832 :=
    roundDouble_eq_self _ 8831277394296835 7 (by norm_num) (by norm_num) (by norm_num)
  have rb : roundDouble (256 + 1 / 8796093022208) = 256 + 1 / 8796093022208 :=
    roundDouble_eq_self _ 4503599627370498 8 (by norm_num) (by norm_num) (by norm_num)
  have rup : roundDouble (251 + 3 / 35184372088832 + 5) = 256 + 1 / 8796093022208 := by
    rw [roundDouble_of_pos _ 8 (by norm_num) (by norm_num),
      roundHalfEven_tie _ 4503599627370497 (by norm_num)]
    norm_num
  have rdown : roundDouble (256 + 1 / 8796093022208 - 5) = 251 + 1 / 8796093022208 := by
    rw [show (256 : ℚ) + 1 / 8796093022208 - 5 = 251 + 1 / 8796093022208 by norm_num]
    exact roundDouble_eq_self _ 8831277394296836 7 (by norm_num) (by norm_num) (by norm_num)
  refine ⟨ra, rb, rup, ?_, ?_, ?_, ?_, ?_⟩
  · simp only [checkCollisionRounded, expandRounded, hits, List.any_cons, List.any_nil,
      r196, r95, r115, rup]
    norm_num
  · simp only [checkCollisionRounded, expandRounded, hits, List.any_cons, List.any_nil,
      r95, r115, r311, rdown]
    norm_num
  · simp only [checkCollision, expand, hits, List.any_cons, List.any_nil]
    norm_num
  · unfold inCanvas
    norm_num
  · unfold inCanvas
    norm_num

/-- C9, amended. In an arithmetic that rounds every result with a monotone `fl` (the
rounding to the nearest double for JavaScript), `checkCollision` returns true exactly when
for some placed box `p` none of `fl(x2 + margin) < p.x1`, `fl(x1 - margin) > p.x2`,
`fl(y2 + margin) < p.y1`, `fl(y1 - margin) > p.y2` holds, that is when the candidate grown
by the rounded margin is not entirely to the left of, right of, above or below `p`; it
returns false on an empty list; for a margin that is not negative and a candidate whose
coordinates are representable a false result means the candidate itself shares no point with
any placed box; and the test of one box against one other box is symmetric in the two boxes
when the eight sums and differences are computed without rounding error. -/
theorem C9_checkCollision_grows_by_rounded_margin (fl : ℚ → ℚ) (hmono : Monotone fl)
    (candidate : BBox) (placedBoxes : List BBox) (margin : ℚ) :
    (checkCollisionRounded fl candidate placedBoxes margin = true
        ↔ ∃ p ∈ placedBoxes,
            ¬ (fl (candidate.x2 + margin) < p.x1 ∨ fl (candidate.x1 - margin) > p.x2
                ∨ fl (candidate.y2 + margin) < p.y1 ∨ fl (candidate.y1 - margin) > p.y2))
      ∧ checkCollisionRounded fl candidate [] margin = false
      ∧ (0 ≤ margin → fl candidate.x1 = candidate.x1 → fl candidate.y1 = candidate.y1 →
          fl candidate.x2 = candidate.x2 → fl candidate.y2 = candidate.y2 →
          checkCollisionRounded fl candidate placedBoxes margin = false →
          ∀ p ∈ placedBoxes, ∀ px py : ℚ,
            ¬ (containsPoint candidate px py ∧ containsPoint p px py))
      ∧ (∀ other : BBox,
          fl (candidate.x1 - margin) = candidate.x1 - margin →
          fl (candidate.y1 - margin) = candidate.y1 - margin →
          fl (candidate.x2 + margin) = candidate.x2 + margin →
          fl (candidate.y2 + margin) = candidate.y2 + margin →
          fl (other.x1 - margin) = other.x1 - margin →
          fl (other.y1 - margin) = other.y1 - margin →
          fl (other.x2 + margin) = other.x2 + margin →
          fl (other.y2 + margin) = other.y2 + margin →
          checkCollisionRounded fl candidate [other] margin
            = checkCollisionRounded fl other [candidate] margin) := by
  refine ⟨checkCollisionRounded_eq_true_iff fl candidate placedBoxes margin, rfl, ?_, ?_⟩
  · intro hm hx1 hy1 hx2 hy2 hfalse p hp px py
    have hsep := (checkCollisionRounded_eq_false_iff fl candidate placedBoxes margin).1 hfalse p hp
    exact no_common_point_of_separatedFrom candidate p
      (separatedFrom_of_expandRounded fl hmono candidate p margin hm hx1 hy1 hx2 hy2 hsep) px py
  · intro other c1 c2 c3 c4 o1 o2 o3 o4
    have hc : expandRounded fl candidate margin = expand candidate margin := by
      simp only [expandRounded, expand, c1, c2, c3, c4]
    have ho : expandRounded fl other margin = expand other margin := by
      simp only [expandRounded, expand, o1, o2, o3, o4]
    rw [Bool.eq_iff_iff, checkCollisionRounded_eq_true_iff, checkCollisionRounded_eq_true_iff]
    simp only [List.mem_singleton, exists_eq_left, hc, ho]
    exact not_congr ⟨separatedFrom_expand_swap candidate other margin,
      separatedFrom_expand_swap other candidate margin⟩

/-- C9 at a concrete input in double arithmetic: the candidate `[100, 110] x [100, 110]`
and the placed box `[112, 130] x [100, 110]` are 2 pixels apart. With margin 5 the test is
true, in either order of the two boxes; with margin 0 it is false, and the two boxes share no
point. -/
theorem C9_witness_two_pixel_gap :
    Monotone roundDouble
      ∧ checkCollisionRounded roundDouble ⟨100, 100, 110, 110⟩ [⟨112, 100, 130, 110⟩] 5 = true
      ∧ checkCollisionRounded roundDouble ⟨112, 100, 130, 110⟩ [⟨100, 100, 110, 110⟩] 5 = true
      ∧ checkCollisionRounded roundDouble ⟨100, 100, 110, 110⟩ [⟨112, 100, 130, 110⟩] 0 = false
      ∧ ∀ p ∈ [(⟨112, 100, 130, 110⟩ : BBox)], ∀ px py : ℚ,
          ¬ (containsPoint ⟨100, 100, 110, 110⟩ px py ∧ containsPoint p px py) :=
  have r : ∀ z : Int, -9007199254740992 < z → z < 9007199254740992 →
      ∀ q : ℚ, q = (z : ℚ) → roundDouble q = q := fun z h1 h2 q hq => by
    rw [hq]
    exact roundDouble_intCast z h1 h2
  have htrue : checkCollisionRounded roundDouble ⟨100, 100, 110, 110⟩ [⟨112, 100, 130, 110⟩] 5
      = true :=
    (C9_checkCollision_grows_by_rounded_margin roundDouble roundDouble_mono
      ⟨100, 100, 110, 110⟩ [⟨112, 100, 130, 110⟩] 5).1.2
      ⟨⟨112, 100, 130, 110⟩, List.mem_singleton.2 rfl, by
        rw [r 115 (by norm_num) (by norm_num) ((110 : ℚ) + 5) (by norm_num),
          r 95 (by norm_num) (by norm_num) ((100 : ℚ) - 5) (by norm_num)]
        norm_num⟩
  have hsym := (C9_checkCollision_grows_by_rounded_margin roundDouble roundDouble_mono
      ⟨100, 100, 110, 110⟩ [⟨112, 100, 130, 110⟩] 5).2.2.2 ⟨112, 100, 130, 110⟩
      (r 95 (by norm_num) (by norm_num) _ (by norm_num))
      (r 95 (by norm_num) (by norm_num) _ (by norm_num))
      (r 115 (by norm_num) (by norm_num) _ (by norm_num))
      (r 115 (by norm_num) (by norm_num) _ (by norm_num))
      (r 107 (by norm_num) (by norm_num) _ (by norm_num))
      (r 95 (by norm_num) (by norm_num) _ (by norm_num))
      (r 135 (by norm_num) (by norm_num) _ (by norm_num))
      (r 115 (by norm_num) (by norm_num) _ (by norm_num))
  have hfalse : checkCollisionRounded roundDouble ⟨100, 100, 110, 110⟩ [⟨112, 100, 130, 110⟩] 0
      = false := by
    rw [← Bool.not_eq_true,
      (C9_checkCollision_grows_by_rounded_margin roundDouble roundDouble_mono
        ⟨100, 100, 110, 110⟩ [⟨112, 100, 130, 110⟩] 0).1]
    simp only [List.mem_singleton, exists_eq_left, not_not]
    left
    rw [r 110 (by norm_num) (by norm_num) ((110 : ℚ) + 0) (by norm_num)]
    norm_num
  ⟨roundDouble_mono, htrue, hsym ▸ htrue, hfalse,
    (C9_checkCollision_grows_by_rounded_margin roundDouble roundDouble_mono
      ⟨100, 100, 110, 110⟩ [⟨112, 100, 130, 110⟩] 0).2.2.1 (le_refl 0)
      (r 100 (by norm_num) (by norm_num) _ (by norm_num))
      (r 100 (by norm_num) (by norm_num) _ (by norm_num))
      (r 110 (by norm_num) (by norm_num) _ (by norm_num))
      (r 110 (by norm_num) (by norm_num) _ (by norm_num)) hfalse⟩

/-- C8 fails as stated for the numbers of JavaScript. For the centre `(2^53, 0)`, width 2,
height 2 and angle 0 (all doubles) the corner sum `2^53 + 1` rounds to `2^53`, so the box is
`[2^53 - 1, 2^53] x [-1, 1]`: its width is 1, not `w * |cos| + h * |sin| = 2`, its centre is
not `x`, and it is not `[x - w/2, x + w/2] x [y - h/2, y + h/2]`. -/
theorem C8_counterexample_rounded_corner :
    roundDouble 9007199254740992 = 9007199254740992 ∧ roundDouble 2 = 2
      ∧ sampleEnv.cos (0 * sampleEnv.pi / 180) = 1 ∧ sampleEnv.sin (0 * sampleEnv.pi / 180) = 0
      ∧ getRotatedBBoxRounded roundDouble sampleEnv 9007199254740992 0 2 2 0
          = { x1 := 9007199254740991, y1 := -1, x2 := 9007199254740992, y2 := 1 }
      ∧ (getRotatedBBoxRounded roundDouble sampleEnv 9007199254740992 0 2 2 0).x2
          - (getRotatedBBoxRounded roundDouble sampleEnv 9007199254740992 0 2 2 0).x1
          ≠ 2 * |sampleEnv.cos (0 * sampleEnv.pi / 180)|
            + 2 * |sampleEnv.sin (0 * sampleEnv.pi / 180)|
      ∧ ((getRotatedBBoxRounded roundDouble sampleEnv 9007199254740992 0 2 2 0).x1
          + (getRotatedBBoxRounded roundDouble sampleEnv 9007199254740992 0 2 2 0).x2) / 2
          ≠ 9007199254740992
      ∧ getRotatedBBoxRounded roundDouble sampleEnv 9007199254740992 0 2 2 0
          ≠ { x1 := 9007199254740992 - 2 / 2, y1 := 0 - 2 / 2,
              x2 := 9007199254740992 + 2 / 2, y2 := 0 + 2 / 2 } := by
  have hcos : sampleEnv.cos (0 * sampleEnv.pi / 180) = 1 := by simp [sampleEnv]
  have hsin : sampleEnv.sin (0 * sampleEnv.pi / 180) = 0 := by simp [sampleEnv]
  have hbox : getRotatedBBoxRounded roundDouble sampleEnv 9007199254740992 0 2 2 0
      = { x1 := 9007199254740991, y1 := -1, x2 := 9007199254740992, y2 := 1 } := by
    rw [getRotatedBBoxRounded_unrotated roundDouble sampleEnv 9007199254740992 0 2 2
      (by norm_num) (by norm_num) roundDouble_mono roundDouble_zero
      (by rw [show (2 : ℚ) / 2 = 1 by norm_num]; exact roundDouble_one)
      (by rw [show (-2 : ℚ) / 2 = -1 by norm_num]; exact roundDouble_neg_one)
      (by rw [show (2 : ℚ) / 2 = 1 by norm_num]; exact roundDouble_one)
      (by rw [show (-2 : ℚ) / 2 = -1 by norm_num]; exact roundDouble_neg_one)
      (by simp [sampleEnv]) (by simp [sampleEnv])]
    rw [show (9007199254740992 : ℚ) - 2 / 2 = 9007199254740991 by norm_num,
      show (9007199254740992 : ℚ) + 2 / 2 = 9007199254740993 by norm_num,
      show (0 : ℚ) - 2 / 2 = -1 by norm_num, show (0 : ℚ) + 2 / 2 = 1 by norm_num,
      roundDouble_2p53_sub_one, roundDouble_2p53_add_one, roundDouble_one, roundDouble_neg_one]
  refine ⟨roundDouble_2p53, roundDouble_two, hcos, hsin, hbox, ?_, ?_, ?_⟩
  · rw [hbox, hcos, hsin]
    norm_num
  · rw [hbox]
    norm_num
  · rw [hbox]
    intro h
    have := congrArg BBox.x2 h
    norm_num at this

/-- C8, amended. In an arithmetic that rounds every result with `fl` (the rounding to the
nearest double for JavaScript), for a width and a height that are not negative,
`getRotatedBBox` returns the smallest axis-aligned box around the four corners as the code
computes them: every computed corner lies in the box, each of `x1`, `x2`, `y1`, `y2` is the
coordinate of some computed corner, and every box that holds the computed corners holds this
box. At angle 0, where the cosine is 1 and the sine 0, for a monotone `fl` that fixes 0 and
the half extents, the box is `[fl(x - w/2), fl(x + w/2)]` by `[fl(y - h/2), fl(y + h/2)]`.
When no result is rounded, the computed corners are the rotated corners, the box is centred
on `(x, y)`, its width is `w * |cos| + h * |sin|` and its height `w * |sin| + h * |cos|` of the
angle in radians. -/
theorem C8_getRotatedBBox_encloses_computed_corners (fl : ℚ → ℚ) (env : Env)
    (x y w h angleDeg : ℚ) (hw : 0 ≤ w) (hh : 0 ≤ h) :
    (∀ p ∈ rotatedCornersRounded fl env x y w h angleDeg,
        containsPoint (getRotatedBBoxRounded fl env x y w h angleDeg) p.x p.y)
      ∧ (∃ p ∈ rotatedCornersRounded fl env x y w h angleDeg,
          p.x = (getRotatedBBoxRounded fl env x y w h angleDeg).x1)
      ∧ (∃ p ∈ rotatedCornersRounded fl env x y w h angleDeg,
          p.x = (getRotatedBBoxRounded fl env x y w h angleDeg).x2)
      ∧ (∃ p ∈ rotatedCornersRounded fl env x y w h angleDeg,
          p.y = (getRotatedBBoxRounded fl env x y w h angleDeg).y1)
      ∧ (∃ p ∈ rotatedCornersRounded fl env x y w h angleDeg,
          p.y = (getRotatedBBoxRounded fl env x y w h angleDeg).y2)
      ∧ (∀ b : BBox,
          (∀ p ∈ rotatedCornersRounded fl env x y w h angleDeg, containsPoint b p.x p.y) →
          b.x1 ≤ (getRotatedBBoxRounded fl env x y w h angleDeg).x1
            ∧ b.y1 ≤ (getRotatedBBoxRounded fl env x y w h angleDeg).y1
            ∧ (getRotatedBBoxRounded fl env x y w h angleDeg).x2 ≤ b.x2
            ∧ (getRotatedBBoxRounded fl env x y w h angleDeg).y2 ≤ b.y2)
      ∧ (angleDeg = 0 → Monotone fl → fl 0 = 0 → fl (w / 2) = w / 2 → fl (-w / 2) = -w / 2 →
          fl (h / 2) = h / 2 → fl (-h / 2) = -h / 2 → env.cos 0 = 1 → env.sin 0 = 0 →
          getRotatedBBoxRounded fl env x y w h angleDeg
            = { x1 := fl (x - w / 2), y1 := fl (y - h / 2), x2 := fl (x + w / 2),
                y2 := fl (y + h / 2) })
      ∧ ((∀ q : ℚ, fl q = q) →
          rotatedCornersRounded fl env x y w h angleDeg = rotatedCorners env x y w h angleDeg
            ∧ ((getRotatedBBoxRounded fl env x y w h angleDeg).x1
                + (getRotatedBBoxRounded fl env x y w h angleDeg).x2) / 2 = x
            ∧ ((getRotatedBBoxRounded fl env x y w h angleDeg).y1
                + (getRotatedBBoxRounded fl env x y w h angleDeg).y2) / 2 = y
            ∧ (getRotatedBBoxRounded fl env x y w h angleDeg).x2
                - (getRotatedBBoxRounded fl env x y w h angleDeg).x1
                = w * |env.cos (angleDeg * env.pi / 180)|
                  + h * |env.sin (angleDeg * env.pi / 180)|
            ∧ (getRotatedBBoxRounded fl env x y w h angleDeg).y2
                - (getRotatedBBoxRounded fl env x y w h angleDeg).y1
                = w * |env.sin (angleDeg * env.pi / 180)|
                  + h * |env.cos (angleDeg * env.pi / 180)|) := by
  have hne := rotatedCornersRounded_ne_nil fl env x y w h angleDeg
  have hxmin := mathMin_mem ((rotatedCornersRounded fl env x y w h angleDeg).map (fun p => p.x))
    (by simpa using hne)
  have hxmax := mathMax_mem ((rotatedCornersRounded fl env x y w h angleDeg).map (fun p => p.x))
    (by simpa using hne)
  have hymin := mathMin_mem ((rotatedCornersRounded fl env x y w h angleDeg).map (fun p => p.y))
    (by simpa using hne)
  have hymax := mathMax_mem ((rotatedCornersRounded fl env x y w h angleDeg).map (fun p => p.y))
    (by simpa using hne)
  obtain ⟨p1, hp1, hp1x⟩ := List.mem_map.1 hxmin
  obtain ⟨p2, hp2, hp2x⟩ := List.mem_map.1 hxmax
  obtain ⟨p3, hp3, hp3y⟩ := List.mem_map.1 hymin
  obtain ⟨p4, hp4, hp4y⟩ := List.mem_map.1 hymax
  refine ⟨?_, ⟨p1, hp1, hp1x⟩, ⟨p2, hp2, hp2x⟩, ⟨p3, hp3, hp3y⟩, ⟨p4, hp4, hp4y⟩, ?_, ?_, ?_⟩
  · intro p hp
    simp only [getRotatedBBoxRounded, containsPoint]
    exact ⟨mathMin_le _ _ (List.mem_map_of_mem _ hp), le_mathMax _ _ (List.mem_map_of_mem _ hp),
      mathMin_le _ _ (List.mem_map_of_mem _ hp), le_mathMax _ _ (List.mem_map_of_mem _ hp)⟩
  · intro b hb
    have e1 : (getRotatedBBoxRounded fl env x y w h angleDeg).x1 = p1.x := hp1x.symm
    have e2 : (getRotatedBBoxRounded fl env x y w h angleDeg).x2 = p2.x := hp2x.symm
    have e3 : (getRotatedBBoxRounded fl env x y w h angleDeg).y1 = p3.y := hp3y.symm
    have e4 : (getRotatedBBoxRounded fl env x y w h angleDeg).y2 = p4.y := hp4y.symm
    rw [e1, e2, e3, e4]
    exact ⟨(hb p1 hp1).1, (hb p3 hp3).2.2.1, (hb p2 hp2).2.1, (hb p4 hp4).2.2.2⟩
  · intro ha hmono h0 hw1 hw2 hh1 hh2 hcos hsin
    rw [ha]
    exact getRotatedBBoxRounded_unrotated fl env x y w h hw hh hmono h0 hw1 hw2 hh1 hh2 hcos hsin
  · intro hid
    have hfl : fl = fun q => q := funext hid
    subst hfl
    have hx := getRotatedBBox_x env x y w h angleDeg hw hh
    have hy := getRotatedBBox_y env x y w h angleDeg hw hh
    rw [getRotatedBBoxRounded_id]
    refine ⟨rfl, ?_, ?_, ?_, ?_⟩
    · rw [hx.1, hx.2]; ring
    · rw [hy.1, hy.2]; ring
    · rw [hx.1, hx.2]; ring
    · rw [hy.1, hy.2]; ring

/-- C8 at concrete inputs. In double arithmetic a 300 by 80 rectangle centred on
`(1000, 1000)` at angle 0 has the box `[850, 1150]` by `[960, 1040]`; in exact arithmetic the
same rectangle at 90 degrees, where the sample cosine is 0 and the sample sine 1, has a box of
width 80 and height 300 centred on `(1000, 1000)`. -/
theorem C8_witness_unrotated_and_quarter_turn :
    (0 : ℚ) ≤ 300 ∧ (0 : ℚ) ≤ 80
      ∧ getRotatedBBoxRounded roundDouble sampleEnv 1000 1000 300 80 0
          = { x1 := 850, y1 := 960, x2 := 1150, y2 := 1040 }
      ∧ (getRotatedBBoxRounded (fun q => q) sampleEnv 1000 1000 300 80 90).x2
          - (getRotatedBBoxRounded (fun q => q) sampleEnv 1000 1000 300 80 90).x1 = 80
      ∧ (getRotatedBBoxRounded (fun q => q) sampleEnv 1000 1000 300 80 90).y2
          - (getRotatedBBoxRounded (fun q => q) sampleEnv 1000 1000 300 80 90).y1 = 300
      ∧ ((getRotatedBBoxRounded (fun q => q) sampleEnv 1000 1000 300 80 90).x1
          + (getRotatedBBoxRounded (fun q => q) sampleEnv 1000 1000 300 80 90).x2) / 2 = 1000 :=
  have r : ∀ z : Int, -9007199254740992 < z → z < 9007199254740992 →
      ∀ q : ℚ, q = (z : ℚ) → roundDouble q = q := fun z h1 h2 q hq => by
    rw [hq]
    exact roundDouble_intCast z h1 h2
  have hbox := (C8_getRotatedBBox_encloses_computed_corners roundDouble sampleEnv
      1000 1000 300 80 0 (by norm_num) (by norm_num)).2.2.2.2.2.2.1 rfl roundDouble_mono
      roundDouble_zero
      (r 150 (by norm_num) (by norm_num) _ (by norm_num))
      (r (-150) (by norm_num) (by norm_num) _ (by norm_num))
      (r 40 (by norm_num) (by norm_num) _ (by norm_num))
      (r (-40) (by norm_num) (by norm_num) _ (by norm_num))
      (by simp [sampleEnv]) (by simp [sampleEnv])
  have hexact := (C8_getRotatedBBox_encloses_computed_corners (fun q => q) sampleEnv
      1000 1000 300 80 90 (by norm_num) (by norm_num)).2.2.2.2.2.2.2 (fun _ => rfl)
  have hc : sampleEnv.cos (90 * sampleEnv.pi / 180) = 0 := by
    simp only [sampleEnv]
    norm_num
  have hs : sampleEnv.sin (90 * sampleEnv.pi / 180) = 1 := by
    simp only [sampleEnv]
    norm_num
  ⟨by norm_num, by norm_num,
    by
      rw [hbox, r 850 (by norm_num) (by norm_num) _ (by norm_num),
        r 960 (by norm_num) (by norm_num) _ (by norm_num),
        r 1150 (by norm_num) (by norm_num) _ (by norm_num),
        r 1040 (by norm_num) (by norm_num) _ (by norm_num)]
      norm_num,
    by rw [hexact.2.2.2.1, hc, hs]; norm_num,
    by rw [hexact.2.2.2.2, hc, hs]; norm_num,
    hexact.2.1⟩

/-! ## Theorems: sizes of the field -/

theorem sizes_makeItems (env : Env) (minScore scoreRange : ℚ) (l : List RankedEntry) :
    ∀ rng : Nat, (makeItems env minScore scoreRange l rng).map Item.size
      = l.map (fun e => fontSize (e.score : ℚ) minScore scoreRange) := by
  induction l with
  | nil => intro rng; rfl
  | cons e l ih =>
    intro rng
    simp only [makeItems, List.map_cons, ih (rng + 1)]
    rfl

theorem zip_makeItems (env : Env) (minScore scoreRange : ℚ) (l : List RankedEntry) :
    ∀ rng : Nat, ∀ p ∈ List.zip l (makeItems env minScore scoreRange l rng),
      p.2.size = fontSize (p.1.score : ℚ) minScore scoreRange := by
  induction l with
  | nil => intro rng p hp; simp [makeItems] at hp
  | cons e l ih =>
    intro rng p hp
    simp only [makeItems, List.zip_cons_cons, List.mem_cons] at hp
    rcases hp with rfl | hp
    · rfl
    · exact ih (rng + 1) p hp

theorem fontSize_bounds (score minScore scoreRange : ℚ) (h0 : 0 < scoreRange)
    (h1 : minScore ≤ score) (h2 : score - minScore ≤ scoreRange) :
    22 ≤ fontSize score minScore scoreRange ∧ fontSize score minScore scoreRange ≤ 100 := by
  unfold fontSize fontSizeOf normalizedOf
  have hn0 : 0 ≤ (score - minScore) / scoreRange := div_nonneg (by linarith) h0.le
  have hn1 : (score - minScore) / scoreRange ≤ 1 := (div_le_one h0).2 h2
  constructor
  · rw [Int.le_floor]
    push_cast
    linarith
  · have hf := Int.floor_le (22 + (score - minScore) / scoreRange * 78)
    have : ((⌊22 + (score - minScore) / scoreRange * 78⌋ : Int) : ℚ) ≤ ((100 : Int) : ℚ) := by
      push_cast
      linarith
    exact_mod_cast this

theorem fontSize_mono (a b minScore scoreRange : ℚ) (h0 : 0 < scoreRange) (hab : b ≤ a) :
    fontSize b minScore scoreRange ≤ fontSize a minScore scoreRange := by
  unfold fontSize fontSizeOf normalizedOf
  apply Int.floor_le_floor
  have : (b - minScore) / scoreRange ≤ (a - minScore) / scoreRange :=
    div_le_div_of_nonneg_right (by linarith) h0.le
  linarith

theorem scoreRangeOf_pos (maxScore minScore : ℚ) (h : minScore ≤ maxScore) :
    0 < scoreRangeOf maxScore minScore ∧ maxScore - minScore ≤ scoreRangeOf maxScore minScore := by
  unfold scoreRangeOf
  split_ifs with h0
  · rw [h0]; norm_num
  · have : 0 ≤ maxScore - minScore := by linarith
    exact ⟨lt_of_le_of_ne this (Ne.symm h0), le_refl _⟩

theorem getLast_score_le (l : List RankedEntry) (hne : l ≠ [])
    (hs : l.Pairwise (fun a b => b.score ≤ a.score)) :
    ∀ e ∈ l, (l.getLast hne).score ≤ e.score := by
  induction l with
  | nil => exact absurd rfl hne
  | cons a t ih =>
    intro e he
    rcases List.pairwise_cons.1 hs with ⟨ha, ht⟩
    cases t with
    | nil =>
      simp only [List.mem_singleton] at he
      simp [he]
    | cons b t' =>
      rw [List.getLast_cons (List.cons_ne_nil b t')]
      rcases List.mem_cons.1 he with rfl | he
      · exact ha _ (List.getLast_mem _)
      · exact ih (List.cons_ne_nil b t') ht e he

/-- In a field sorted by descending score every score lies between the score of the last
and the score of the first element, and the score range is positive. -/
theorem field_scores_in_range (o : RankedEntry) (os : List RankedEntry)
    (hs : (o :: os).Pairwise (fun a b => b.score ≤ a.score)) :
    0 < scoreRangeOf (o.score : ℚ) (((o :: os).getLast (List.cons_ne_nil o os)).score : ℚ)
      ∧ ∀ e ∈ o :: os,
          ((((o :: os).getLast (List.cons_ne_nil o os)).score : ℚ) ≤ (e.score : ℚ))
            ∧ (e.score : ℚ) - (((o :: os).getLast (List.cons_ne_nil o os)).score : ℚ)
              ≤ scoreRangeOf (o.score : ℚ)
                  (((o :: os).getLast (List.cons_ne_nil o os)).score : ℚ) := by
  have hlast := getLast_score_le (o :: os) (List.cons_ne_nil o os) hs
  have hfirst : ∀ e ∈ o :: os, e.score ≤ o.score := by
    intro e he
    rcases List.mem_cons.1 he with rfl | he
    · exact le_refl _
    · exact (List.pairwise_cons.1 hs).1 e he
  have hmm : (((o :: os).getLast (List.cons_ne_nil o os)).score : ℚ) ≤ (o.score : ℚ) := by
    exact_mod_cast hlast o (List.mem_cons_self o os)
  obtain ⟨hpos, hle⟩ := scoreRangeOf_pos _ _ hmm
  refine ⟨hpos, fun e he => ⟨by exact_mod_cast hlast e he, ?_⟩⟩
  have : (e.score : ℚ) ≤ (o.score : ℚ) := by exact_mod_cast hfirst e he
  linarith

theorem mem_fieldItems_size (env : Env) (o : RankedEntry) (os : List RankedEntry) :
    ∀ it ∈ fieldItems env (o :: os), ∃ e ∈ o :: os,
      it.size = fontSize (e.score : ℚ)
        (((o :: os).getLast (List.cons_ne_nil o os)).score : ℚ)
        (scoreRangeOf (o.score : ℚ) (((o :: os).getLast (List.cons_ne_nil o os)).score : ℚ)) := by
  intro it hit
  have hmem : it.size ∈ (fieldItems env (o :: os)).map Item.size := List.mem_map_of_mem _ hit
  simp only [fieldItems] at hmem
  rw [sizes_makeItems] at hmem
  obtain ⟨e, he, hsize⟩ := List.mem_map.1 hmem
  exact ⟨e, he, hsize.symm⟩

theorem length_makeItems (env : Env) (minScore scoreRange : ℚ) (l : List RankedEntry)
    (rng : Nat) : (makeItems env minScore scoreRange l rng).length = l.length := by
  have := congrArg List.length (sizes_makeItems env minScore scoreRange l rng)
  simpa only [List.length_map] using this

theorem length_fieldItems (env : Env) (others : List RankedEntry) :
    (fieldItems env others).length = others.length := by
  cases others with
  | nil => rfl
  | cons o os => exact length_makeItems env _ _ (o :: os) 0

theorem staysBefore_bySizeDesc_iff (a b : Item) : staysBefore bySizeDesc a b ↔ b.size ≤ a.size := by
  simp only [staysBefore, bySizeDesc, sub_nonpos]

/-- C5. In a ranked list (sorted by descending score) with at least two entries, every field
item gets the font size `floor(22 + normalized * 78)`, where `normalized` is
`(score - minScore) / scoreRange`, `maxScore` and `minScore` are the scores of the first and
of the last field entry and `scoreRange` is `(maxScore - minScore) || 1`; this size lies
between 22 and 100. -/
theorem C5_field_font_size_bounds (env : Env) (winner o : RankedEntry) (os : List RankedEntry)
    (hsorted : (winner :: o :: os).Pairwise (fun a b => b.score ≤ a.score)) :
    (fieldItems env (winner :: o :: os).tail).map Item.size
        = (winner :: o :: os).tail.map (fun e =>
            ⌊(22 : ℚ)
              + ((e.score : ℚ) - (((o :: os).getLast (List.cons_ne_nil o os)).score : ℚ))
                / (if (o.score : ℚ) - (((o :: os).getLast (List.cons_ne_nil o os)).score : ℚ) = 0
                    then 1
                    else (o.score : ℚ)
                      - (((o :: os).getLast (List.cons_ne_nil o os)).score : ℚ)) * 78⌋)
      ∧ ∀ it ∈ fieldItems env (winner :: o :: os).tail, 22 ≤ it.size ∧ it.size ≤ 100 := by
  have hfield : (o :: os).Pairwise (fun a b => b.score ≤ a.score) :=
    (List.pairwise_cons.1 hsorted).2
  obtain ⟨hpos, hrange⟩ := field_scores_in_range o os hfield
  simp only [List.tail_cons]
  constructor
  · simp only [fieldItems]
    rw [sizes_makeItems]
    rfl
  · intro it hit
    obtain ⟨e, he, hsize⟩ := mem_fieldItems_size env o os it hit
    rw [hsize]
    exact fontSize_bounds _ _ _ hpos (hrange e he).1 (hrange e he).2

/-- C5 at a concrete ranked list with scores 9, 5, 3, 1: the field sizes are within bounds. -/
theorem C5_witness_sizes_in_bounds :
    ([⟨"w", 9⟩, ⟨"a", 5⟩, ⟨"b", 3⟩, ⟨"c", 1⟩] : List RankedEntry).Pairwise
        (fun a b => b.score ≤ a.score)
      ∧ ∀ it ∈ fieldItems sampleEnv
          ([⟨"w", 9⟩, ⟨"a", 5⟩, ⟨"b", 3⟩, ⟨"c", 1⟩] : List RankedEntry).tail,
          22 ≤ it.size ∧ it.size ≤ 100 :=
  ⟨by decide,
    (C5_field_font_size_bounds sampleEnv ⟨"w", 9⟩ ⟨"a", 5⟩ [⟨"b", 3⟩, ⟨"c", 1⟩] (by decide)).2⟩

/-- In a field sorted by descending score a field item whose score is at least that of
another has a font size at least as large, every field size is below the 180 of the winner,
and the sort by descending size returns the items in the order they had. -/
theorem field_sizes_follow_scores (env : Env) (o : RankedEntry) (os : List RankedEntry)
    (hfield : (o :: os).Pairwise (fun a b => b.score ≤ a.score)) :
    (∀ p ∈ List.zip (o :: os) (fieldItems env (o :: os)),
        ∀ q ∈ List.zip (o :: os) (fieldItems env (o :: os)),
          q.1.score ≤ p.1.score → q.2.size ≤ p.2.size)
      ∧ (∀ it ∈ fieldItems env (o :: os), it.size < winnerFontSize)
      ∧ arraySort bySizeDesc (fieldItems env (o :: os)) = fieldItems env (o :: os) := by
  obtain ⟨hpos, hrange⟩ := field_scores_in_range o os hfield
  refine ⟨?_, ?_, ?_⟩
  · intro p hp q hq hqp
    have hp' := zip_makeItems env _ _ (o :: os) 0 p hp
    have hq' := zip_makeItems env _ _ (o :: os) 0 q hq
    rw [hp', hq']
    exact fontSize_mono _ _ _ _ hpos (by exact_mod_cast hqp)
  · intro it hit
    obtain ⟨e, he, hsize⟩ := mem_fieldItems_size env o os it hit
    have := (fontSize_bounds _ _ _ hpos (hrange e he).1 (hrange e he).2).2
    rw [hsize]
    unfold winnerFontSize
    omega
  · unfold arraySort
    apply List.Sorted.insertionSort_eq
    have hsizes : ((fieldItems env (o :: os)).map Item.size).Pairwise (fun x y => y ≤ x) := by
      simp only [fieldItems]
      rw [sizes_makeItems, List.pairwise_map]
      exact hfield.imp (fun {a b} hab => fontSize_mono _ _ _ _ hpos (by exact_mod_cast hab))
    rw [List.pairwise_map] at hsizes
    exact hsizes.imp (fun {a b} hab => (staysBefore_bySizeDesc_iff a b).2 hab)

/-- For scores that are numbers `fieldFontSizes` gives the sizes of the items of
`fieldItems`. -/
theorem fieldFontSizes_of_ranked (env : Env) (others : List RankedEntry) :
    fieldFontSizes (others.map (fun e => ⟨e.name, Score.num e.score⟩))
      = (fieldItems env others).map (fun it => some it.size) := by
  cases others with
  | nil => rfl
  | cons o os =>
    have hsizes := sizes_makeItems env
      ((((o :: os).getLast (List.cons_ne_nil o os)).score : Nat) : ℚ)
      (scoreRangeOf (o.score : ℚ) ((((o :: os).getLast (List.cons_ne_nil o os)).score : Nat) : ℚ))
      (o :: os) 0
    have hr : (fieldItems env (o :: os)).map (fun it => some it.size)
        = ((fieldItems env (o :: os)).map Item.size).map some := by
      rw [List.map_map]
      rfl
    rw [hr]
    simp only [fieldItems]
    rw [hsizes]
    simp only [List.map_cons, fieldFontSizes, List.map_map]
    have hlast : ((⟨o.name, Score.num o.score⟩ : ScoreEntry)
        :: List.map (fun e : RankedEntry => (⟨e.name, Score.num e.score⟩ : ScoreEntry)) os).getLast
          (List.cons_ne_nil _ _)
        = ⟨((o :: os).getLast (List.cons_ne_nil o os)).name,
            Score.num ((o :: os).getLast (List.cons_ne_nil o os)).score⟩ := by
      have := List.getLast_map (fun e : RankedEntry => (⟨e.name, Score.num e.score⟩ : ScoreEntry))
        (o :: os) (by simp)
      simpa only [List.map_cons] using this
    rw [hlast]
    simp [fontSizeOfScore, scoreRangeOfScores, Score.toRat, Function.comp_def]

/-- C6, evaluated at a failing input. With the contact `A` and the votes `A`, `B`, `B` the
sort puts `B` (2 votes) in front of `A` (1 vote). With one more vote, cast first, for the
label `valueOf`, the `scores` array is `[{A, 1}, {valueOf, NaN}, {B, 2}]`: the comparator
returns `NaN` for every pair that holds the `NaN` entry and the sort moves nothing. Entry 0,
drawn at 180 pixels as the winner, is `A` with score 1, lower than the score 2 of the field
item `B`; and the field sizes are `NaN` for `valueOf` and 22, the minimum, for `B`. With the
votes `valueOf`, `B`, `B` alone the array is `[{valueOf, NaN}, {B, 2}]`, where the only
comparison returns `NaN`: the winner has the score `NaN` and `B` is the one field item, of
size 22. -/
theorem C6_winner_outscored_by_field_item :
    buildScores ["A"] ["A", "B", "B"] = [⟨"B", Score.num 2⟩, ⟨"A", Score.num 1⟩]
      ∧ buildScores ["A"] ["valueOf", "A", "B", "B"]
          = [⟨"A", Score.num 1⟩, ⟨"valueOf", Score.nan⟩, ⟨"B", Score.num 2⟩]
      ∧ (buildScores ["A"] ["valueOf", "A", "B", "B"]).head? = some ⟨"A", Score.num 1⟩
      ∧ (⟨"B", Score.num 2⟩ : ScoreEntry) ∈ (buildScores ["A"] ["valueOf", "A", "B", "B"]).tail
      ∧ fieldFontSizes (buildScores ["A"] ["valueOf", "A", "B", "B"]).tail = [none, some 22]
      ∧ buildScores [] ["valueOf", "B", "B"] = [⟨"valueOf", Score.nan⟩, ⟨"B", Score.num 2⟩]
      ∧ fieldFontSizes (buildScores [] ["valueOf", "B", "B"]).tail = [some 22]
      ∧ winnerFontSize = 180 := by
  have h : buildScores ["A"] ["valueOf", "A", "B", "B"]
      = [⟨"A", Score.num 1⟩, ⟨"valueOf", Score.nan⟩, ⟨"B", Score.num 2⟩] := by decide
  have h2 : buildScores [] ["valueOf", "B", "B"]
      = [⟨"valueOf", Score.nan⟩, ⟨"B", Score.num 2⟩] := by decide
  refine ⟨by decide, h, ?_, ?_, ?_, h2, ?_, rfl⟩
  · rw [h]
    rfl
  · rw [h]
    decide
  · rw [h]
    simp only [List.tail_cons, fieldFontSizes, List.getLast_cons_cons, List.getLast_singleton,
      List.map, fontSizeOfScore, scoreRangeOfScores, Score.toRat, fontSize, fontSizeOf,
      normalizedOf]
    norm_num
  · rw [h2]
    simp only [List.tail_cons, fieldFontSizes, List.getLast_singleton,
      List.map, fontSizeOfScore, scoreRangeOfScores, Score.toRat, fontSize, fontSizeOf,
      normalizedOf, scoreRangeOf]
    norm_num

/-- C10. In a ranked list with at least two entries whose field scores are all equal, the
score range is 1 (so no division by zero occurs), `normalized` is 0 for every field entry,
and every field item gets the font size 22. -/
theorem C10_equal_scores_give_22 (env : Env) (winner o : RankedEntry) (os : List RankedEntry)
    (heq : ∀ a ∈ (winner :: o :: os).tail, ∀ b ∈ (winner :: o :: os).tail, a.score = b.score) :
    scoreRangeOf (o.score : ℚ) (((o :: os).getLast (List.cons_ne_nil o os)).score : ℚ) = 1
      ∧ (∀ e ∈ (winner :: o :: os).tail,
          normalizedOf (e.score : ℚ) (((o :: os).getLast (List.cons_ne_nil o os)).score : ℚ)
            (scoreRangeOf (o.score : ℚ)
              (((o :: os).getLast (List.cons_ne_nil o os)).score : ℚ)) = 0)
      ∧ (fieldItems env (winner :: o :: os).tail).length = (winner :: o :: os).tail.length
      ∧ ∀ it ∈ fieldItems env (winner :: o :: os).tail, it.size = 22 := by
  simp only [List.tail_cons] at heq ⊢
  have hlast : ∀ e ∈ o :: os,
      (e.score : ℚ) = (((o :: os).getLast (List.cons_ne_nil o os)).score : ℚ) := by
    intro e he
    exact_mod_cast heq e he _ (List.getLast_mem _)
  have hrange :
      scoreRangeOf (o.score : ℚ) (((o :: os).getLast (List.cons_ne_nil o os)).score : ℚ) = 1 := by
    unfold scoreRangeOf
    rw [hlast o (List.mem_cons_self o os)]
    simp
  have hnorm : ∀ e ∈ o :: os,
      normalizedOf (e.score : ℚ) (((o :: os).getLast (List.cons_ne_nil o os)).score : ℚ)
        (scoreRangeOf (o.score : ℚ)
          (((o :: os).getLast (List.cons_ne_nil o os)).score : ℚ)) = 0 := by
    intro e he
    unfold normalizedOf
    rw [hlast e he]
    simp
  refine ⟨hrange, hnorm, length_fieldItems env (o :: os), ?_⟩
  intro it hit
  obtain ⟨e, he, hsize⟩ := mem_fieldItems_size env o os it hit
  rw [hsize]
  unfold fontSize
  rw [hnorm e he]
  unfold fontSizeOf
  norm_num

/-- C10 at the scenario of three labels without votes: both field items get size 22. -/
theorem C10_witness_zero_scores :
    (∀ a ∈ ([⟨"Alice", 0⟩, ⟨"Bob", 0⟩, ⟨"Carol", 0⟩] : List RankedEntry).tail,
        ∀ b ∈ ([⟨"Alice", 0⟩, ⟨"Bob", 0⟩, ⟨"Carol", 0⟩] : List RankedEntry).tail,
          a.score = b.score)
      ∧ ∀ it ∈ fieldItems sampleEnv
          ([⟨"Alice", 0⟩, ⟨"Bob", 0⟩, ⟨"Carol", 0⟩] : List RankedEntry).tail, it.size = 22 :=
  ⟨by decide,
    (C10_equal_scores_give_22 sampleEnv ⟨"Alice", 0⟩ ⟨"Bob", 0⟩ [⟨"Carol", 0⟩]
      (by decide)).2.2.2⟩

/-! ## Theorems: placement -/

theorem outOfCanvas_eq_false (b : BBox) (h : outOfCanvas b = false) :
    20 ≤ b.x1 ∧ 20 ≤ b.y1 ∧ b.x2 ≤ 1980 ∧ b.y2 ≤ 1980 := by
  simp only [outOfCanvas, canvasSize, Bool.or_eq_false_iff, decide_eq_false_iff_not, not_lt] at h
  obtain ⟨⟨⟨h1, h2⟩, h3⟩, h4⟩ := h
  norm_num at h3 h4
  exact ⟨h1, h2, h3, h4⟩

/-- An accepted box passed the canvas test and the collision test, and is the box of a
candidate. -/
theorem spiral_box (env : Env) (item : Item) (placedBoxes : List BBox) :
    ∀ (fuel : Nat) (angle radius : ℚ) (rng i : Nat) (b : BBox),
      (spiral env item placedBoxes fuel angle radius rng i).box = some b →
        outOfCanvas b = false ∧ checkCollision b placedBoxes 5 = false
          ∧ ∃ x y rot : ℚ, b = getRotatedBBox env x y item.width item.height rot := by
  intro fuel
  induction fuel with
  | zero => intro angle radius rng i b hb; simp [spiral] at hb
  | succ fuel ih =>
    intro angle radius rng i b hb
    simp only [spiral] at hb
    by_cases h1 : outOfCanvas
        (candidate env item (angle + 1 / 4) (radius + spiralTightness) rng).bbox = true
    · rw [if_pos h1] at hb
      exact ih _ _ _ _ b hb
    · rw [if_neg h1] at hb
      by_cases h2 : (!checkCollision
          (candidate env item (angle + 1 / 4) (radius + spiralTightness) rng).bbox
          placedBoxes 5) = true
      · rw [if_pos h2] at hb
        simp only [Option.some.injEq] at hb
        subst hb
        refine ⟨by simpa using h1, by simpa using h2, ?_⟩
        exact ⟨_, _, _, rfl⟩
      · rw [if_neg h2] at hb
        exact ih _ _ _ _ b hb

theorem inCanvas_of_accepted (env : Env) (item : Item) (placedBoxes : List BBox)
    (fuel : Nat) (angle radius : ℚ) (rng i : Nat) (b : BBox)
    (hb : (spiral env item placedBoxes fuel angle radius rng i).box = some b) : inCanvas b := by
  obtain ⟨hout, _, x, y, rot, rfl⟩ := spiral_box env item placedBoxes fuel angle radius rng i b hb
  obtain ⟨h1, h2, h3, h4⟩ := outOfCanvas_eq_false _ hout
  obtain ⟨hx, hy⟩ := getRotatedBBox_ordered env x y item.width item.height rot
  exact ⟨h1, hx, h3, h2, hy, h4⟩

theorem placeItem_placedBoxes (env : Env) (st : PassState) (item : Item) :
    (placeItem env st item).placedBoxes
      = match (spiral env item st.placedBoxes 800 0 startRadius st.rng 0).box with
        | some b => st.placedBoxes ++ [b]
        | none => st.placedBoxes := by
  unfold placeItem
  dsimp only
  cases (spiral env item st.placedBoxes 800 0 startRadius st.rng 0).box <;> rfl

/-- One step of `items.forEach` keeps the boxes pairwise separated, keeps the first box,
and adds at most one box, which lies on the canvas. -/
theorem placeItem_spec (env : Env) (st : PassState) (item : Item) :
    (st.placedBoxes.Pairwise separatedFrom →
        (placeItem env st item).placedBoxes.Pairwise separatedFrom)
      ∧ ((placeItem env st item).placedBoxes = st.placedBoxes
          ∨ ∃ b, inCanvas b ∧ (placeItem env st item).placedBoxes = st.placedBoxes ++ [b]) := by
  cases hbox : (spiral env item st.placedBoxes 800 0 startRadius st.rng 0).box with
  | none =>
    have h : (placeItem env st item).placedBoxes = st.placedBoxes := by
      rw [placeItem_placedBoxes, hbox]
    rw [h]
    exact ⟨fun hpw => hpw, Or.inl rfl⟩
  | some b =>
    have h : (placeItem env st item).placedBoxes = st.placedBoxes ++ [b] := by
      rw [placeItem_placedBoxes, hbox]
    rw [h]
    refine ⟨fun hpw => ?_, Or.inr ⟨b, inCanvas_of_accepted _ _ _ _ _ _ _ _ b hbox, rfl⟩⟩
    obtain ⟨_, hcol, _⟩ := spiral_box env item st.placedBoxes 800 0 startRadius st.rng 0 b hbox
    rw [List.pairwise_append]
    refine ⟨hpw, List.pairwise_singleton _ _, ?_⟩
    intro p hp q hq
    simp only [List.mem_singleton] at hq
    subst hq
    have hsep := (checkCollision_eq_false_iff q st.placedBoxes 5).1 hcol p hp
    exact separatedFrom_symm q p (separatedFrom_of_expand q p 5 (by norm_num) hsep)

theorem foldl_placeItem_spec (env : Env) (items : List Item) :
    ∀ st : PassState,
      (st.placedBoxes.Pairwise separatedFrom →
          (items.foldl (placeItem env) st).placedBoxes.Pairwise separatedFrom)
        ∧ ∃ added : List BBox, (∀ b ∈ added, inCanvas b)
            ∧ (items.foldl (placeItem env) st).placedBoxes = st.placedBoxes ++ added := by
  induction items with
  | nil => intro st; exact ⟨fun h => h, [], by simp, by simp⟩
  | cons item items ih =>
    intro st
    obtain ⟨hpw, hadd⟩ := placeItem_spec env st item
    obtain ⟨hpw', added, hin, heq⟩ := ih (placeItem env st item)
    simp only [List.foldl_cons]
    refine ⟨fun h => hpw' (hpw h), ?_⟩
    rcases hadd with h0 | ⟨b, hb, h1⟩
    · exact ⟨added, hin, by rw [heq, h0]⟩
    · refine ⟨b :: added, ?_, by rw [heq, h1]; simp⟩
      intro b' hb'
      rcases List.mem_cons.1 hb' with rfl | hb'
      · exact hb
      · exact hin b' hb'

/-- C3. For every ranked list and every runtime (text measurement, random draws, cosine and
sine), the boxes in `placedBoxes` at the end of a render pass, the padded box of the winner
and every accepted field box, are pairwise separated: of any two, one lies strictly to the
left of, to the right of, above or below the other. -/
theorem C3_placed_boxes_do_not_overlap (env : Env) (scores : List RankedEntry) :
    (renderPass env scores).placedBoxes.Pairwise separatedFrom := by
  unfold renderPass
  cases scores with
  | nil => exact List.Pairwise.nil
  | cons winner others =>
    cases others with
    | nil => exact List.pairwise_singleton _ _
    | cons o os => exact (foldl_placeItem_spec env _ _).1 (List.pairwise_singleton _ _)

theorem inCanvas_winnerBox_iff (wWidth : ℚ) :
    inCanvas (winnerBox wWidth) ↔ -60 ≤ wWidth ∧ wWidth ≤ 1900 := by
  simp only [inCanvas, winnerBox, center, canvasSize, winnerFontSize]
  constructor
  · rintro ⟨h1, h2, h3, h4, h5, h6⟩
    constructor <;> linarith
  · rintro ⟨h1, h2⟩
    refine ⟨?_, ?_, ?_, ?_, ?_, ?_⟩ <;> norm_num <;> linarith

/-- C4 fails as stated: a winner whose text measures 1980 pixels (22 glyphs of 90 pixels)
gets the box `[-20, 2020]` by `[898, 1102]`, which is recorded although it leaves the
canvas. -/
theorem C4_counterexample_wide_winner :
    (renderPass sampleEnv [⟨"Maximiliano Villanueva", 3⟩]).placedBoxes
        = [{ x1 := -20, y1 := 898, x2 := 2020, y2 := 1102 }]
      ∧ ¬ inCanvas { x1 := -20, y1 := 898, x2 := 2020, y2 := 1102 } := by
  constructor
  · have hlen : (String.mk (("Maximiliano Villanueva" : String).data.map Char.toLower)).length
        = 22 := by decide
    simp only [renderPass, winnerBox, sampleEnv, center, canvasSize, winnerFontSize, hlen]
    norm_num
  · simp only [inCanvas]
    norm_num

/-- C4, amended. Every accepted field box in `placedBoxes` (every box after the first)
satisfies `20 ≤ x1 ≤ x2 ≤ 1980` and `20 ≤ y1 ≤ y2 ≤ 1980`. The first box is the box of the
winner, recorded without a test; it satisfies the bounds exactly when the measured width of
the winner text lies between -60 and 1900. -/
theorem C4_field_boxes_in_canvas (env : Env) (scores : List RankedEntry) :
    (∀ b ∈ (renderPass env scores).placedBoxes.tail, inCanvas b)
      ∧ (∀ (winner : RankedEntry) (others : List RankedEntry), scores = winner :: others →
          (renderPass env scores).placedBoxes.head?
            = some (winnerBox (env.measureText winnerFontSize (env.toLowerCase winner.name))))
      ∧ (∀ wWidth : ℚ, inCanvas (winnerBox wWidth) ↔ -60 ≤ wWidth ∧ wWidth ≤ 1900) := by
  refine ⟨?_, ?_, inCanvas_winnerBox_iff⟩
  · unfold renderPass
    cases scores with
    | nil => intro b hb; simp at hb
    | cons winner others =>
      cases others with
      | nil => intro b hb; simp at hb
      | cons o os =>
        obtain ⟨added, hin, heq⟩ := (foldl_placeItem_spec env
          (arraySort bySizeDesc (fieldItems env (o :: os)))
          { placedBoxes :=
              [winnerBox (env.measureText winnerFontSize (env.toLowerCase winner.name))],
            rng := (o :: os).length, attempts := 0 }).2
        simp only at heq ⊢
        rw [heq]
        intro b hb
        exact hin b (by simpa using hb)
  · intro winner others hs
    subst hs
    unfold renderPass
    cases others with
    | nil => rfl
    | cons o os =>
      obtain ⟨added, _, heq⟩ := (foldl_placeItem_spec env
        (arraySort bySizeDesc (fieldItems env (o :: os)))
        { placedBoxes :=
            [winnerBox (env.measureText winnerFontSize (env.toLowerCase winner.name))],
          rng := (o :: os).length, attempts := 0 }).2
      simp only at heq ⊢
      rw [heq]
      rfl

/-- C4 at a concrete ranked list: the first recorded box is the box of the winner `w`,
whose text measures 90 pixels. -/
theorem C4_witness_winner_box_first :
    ([⟨"w", 9⟩, ⟨"a", 5⟩] : List RankedEntry) = ⟨"w", 9⟩ :: [⟨"a", 5⟩]
      ∧ (renderPass sampleEnv [⟨"w", 9⟩, ⟨"a", 5⟩]).placedBoxes.head?
          = some (winnerBox
              (sampleEnv.measureText winnerFontSize (sampleEnv.toLowerCase "w"))) :=
  ⟨rfl, (C4_field_boxes_in_canvas sampleEnv [⟨"w", 9⟩, ⟨"a", 5⟩]).2.1 ⟨"w", 9⟩ [⟨"a", 5⟩] rfl⟩

/-! ## Theorems: the attempt budget -/

theorem length_candidates (env : Env) (item : Item) :
    ∀ (fuel : Nat) (angle radius : ℚ) (rng : Nat),
      (candidates env item fuel angle radius rng).length = fuel := by
  intro fuel
  induction fuel with
  | zero => intro angle radius rng; rfl
  | succ fuel ih =>
    intro angle radius rng
    simp only [candidates, List.length_cons, ih]

theorem mem_candidates_bbox (env : Env) (item : Item) :
    ∀ (fuel : Nat) (angle radius : ℚ) (rng : Nat),
      ∀ c ∈ candidates env item fuel angle radius rng,
        ∃ x y rot : ℚ, c.bbox = getRotatedBBox env x y item.width item.height rot := by
  intro fuel
  induction fuel with
  | zero => intro angle radius rng c hc; simp [candidates] at hc
  | succ fuel ih =>
    intro angle radius rng c hc
    simp only [candidates, List.mem_cons] at hc
    rcases hc with rfl | hc
    · exact ⟨_, _, _, rfl⟩
    · exact ih _ _ _ c hc

/-- The loop is the search for the first accepted candidate: its box is the box of that
candidate, and the number of iterations is the position of that candidate, or the whole
budget when no candidate is accepted. -/
theorem spiral_eq_find (env : Env) (item : Item) (placedBoxes : List BBox) :
    ∀ (fuel : Nat) (angle radius : ℚ) (rng i : Nat),
      (spiral env item placedBoxes fuel angle radius rng i).box
          = ((candidates env item fuel angle radius rng).find? (accepted placedBoxes)).map
              Candidate.bbox
        ∧ (spiral env item placedBoxes fuel angle radius rng i).tries
          = i + min ((candidates env item fuel angle radius rng).findIdx
              (accepted placedBoxes) + 1) fuel := by
  intro fuel
  induction fuel with
  | zero => intro angle radius rng i; simp [spiral, candidates]
  | succ fuel ih =>
    intro angle radius rng i
    obtain ⟨ihb, iht⟩ := ih (angle + 1 / 4) (radius + spiralTightness)
      (candidate env item (angle + 1 / 4) (radius + spiralTightness) rng).rng (i + 1)
    simp only [spiral, candidates]
    by_cases h1 : outOfCanvas
        (candidate env item (angle + 1 / 4) (radius + spiralTightness) rng).bbox = true
    · have hacc : accepted placedBoxes
          (candidate env item (angle + 1 / 4) (radius + spiralTightness) rng) = false := by
        simp only [accepted, h1, Bool.not_true, Bool.false_and]
      rw [if_pos h1, List.find?_cons, hacc, List.findIdx_cons, hacc, ihb, iht]
      refine ⟨rfl, ?_⟩
      simp only [cond_false]
      omega
    · rw [if_neg h1]
      by_cases h2 : (!checkCollision
          (candidate env item (angle + 1 / 4) (radius + spiralTightness) rng).bbox
          placedBoxes 5) = true
      · have hacc : accepted placedBoxes
            (candidate env item (angle + 1 / 4) (radius + spiralTightness) rng) = true := by
          rw [Bool.not_eq_true] at h1
          simp only [accepted, h1, h2, Bool.not_false, Bool.and_self]
        rw [if_pos h2, List.find?_cons, hacc, List.findIdx_cons, hacc]
        refine ⟨rfl, ?_⟩
        simp only [cond_true]
        omega
      · have hacc : accepted placedBoxes
            (candidate env item (angle + 1 / 4) (radius + spiralTightness) rng) = false := by
          rw [Bool.not_eq_true] at h2
          simp only [accepted, h2, Bool.and_false]
        rw [if_neg h2, List.find?_cons, hacc, List.findIdx_cons, hacc, ihb, iht]
        refine ⟨rfl, ?_⟩
        simp only [cond_false]
        omega

theorem spiral_tries_bounds (env : Env) (item : Item) (placedBoxes : List BBox) (rng : Nat) :
    1 ≤ (spiral env item placedBoxes 800 0 startRadius rng 0).tries
      ∧ (spiral env item placedBoxes 800 0 startRadius rng 0).tries ≤ 800 := by
  rw [(spiral_eq_find env item placedBoxes 800 0 startRadius rng 0).2]
  omega

theorem placeItem_attempts (env : Env) (st : PassState) (item : Item) :
    (placeItem env st item).attempts
      = st.attempts + (spiral env item st.placedBoxes 800 0 startRadius st.rng 0).tries := by
  unfold placeItem
  dsimp only
  cases (spiral env item st.placedBoxes 800 0 startRadius st.rng 0).box <;> rfl

/-- Over a list of items the attempts grow by at least one and at most 800 per item. -/
theorem foldl_placeItem_attempts (env : Env) (items : List Item) :
    ∀ st : PassState,
      st.attempts + items.length ≤ (items.foldl (placeItem env) st).attempts
        ∧ (items.foldl (placeItem env) st).attempts ≤ st.attempts + 800 * items.length := by
  induction items with
  | nil => intro st; simp
  | cons item items ih =>
    intro st
    obtain ⟨h1, h2⟩ := ih (placeItem env st item)
    obtain ⟨t1, t2⟩ := spiral_tries_bounds env item st.placedBoxes st.rng
    rw [placeItem_attempts] at h1 h2
    simp only [List.foldl_cons, List.length_cons]
    constructor <;> omega

theorem renderPass_attempts (env : Env) (scores : List RankedEntry) :
    scores.tail.length ≤ (renderPass env scores).attempts
      ∧ (renderPass env scores).attempts ≤ 800 * scores.tail.length := by
  unfold renderPass
  cases scores with
  | nil => simp
  | cons winner others =>
    cases others with
    | nil => simp
    | cons o os =>
      have hlen : (arraySort bySizeDesc (fieldItems env (o :: os))).length = (o :: os).length := by
        unfold arraySort
        rw [List.length_insertionSort, length_fieldItems]
      obtain ⟨h1, h2⟩ := foldl_placeItem_attempts env
        (arraySort bySizeDesc (fieldItems env (o :: os)))
        { placedBoxes :=
            [winnerBox (env.measureText winnerFontSize (env.toLowerCase winner.name))],
          rng := (o :: os).length, attempts := 0 }
      rw [hlen] at h1 h2
      simp only [List.tail_cons] at h1 h2 ⊢
      constructor <;> omega

/-- Under the sample runtime every candidate box of the wide item leaves the canvas. -/
theorem wideItem_out_of_canvas (x y rot : ℚ) :
    outOfCanvas (getRotatedBBox sampleEnv x y wideItem.width wideItem.height rot) = true := by
  have hw : wideItem.width = 3000 := rfl
  have hh : wideItem.height = 88 / 5 := rfl
  rw [hw, hh]
  obtain ⟨hx1, hx2⟩ := getRotatedBBox_x sampleEnv x y 3000 (88 / 5) rot
    (by norm_num) (by norm_num)
  obtain ⟨hy1, hy2⟩ := getRotatedBBox_y sampleEnv x y 3000 (88 / 5) rot
    (by norm_num) (by norm_num)
  simp only [outOfCanvas, canvasSize, Bool.or_eq_true, decide_eq_true_eq]
  by_cases h0 : rot * sampleEnv.pi / 180 = 0
  · have hc : sampleEnv.cos (rot * sampleEnv.pi / 180) = 1 := by
      rw [h0]; simp [sampleEnv]
    have hs : sampleEnv.sin (rot * sampleEnv.pi / 180) = 0 := by
      rw [h0]; simp [sampleEnv]
    rw [hc, hs] at hx1 hx2
    simp only [abs_one, abs_zero, mul_one, mul_zero, add_zero] at hx1 hx2
    by_cases hx : (getRotatedBBox sampleEnv x y 3000 (88 / 5) rot).x1 < 20
    · exact Or.inl (Or.inl (Or.inl hx))
    · refine Or.inl (Or.inr ?_)
      rw [hx1] at hx
      rw [hx2]
      norm_num at hx ⊢
      linarith
  · have hc : sampleEnv.cos (rot * sampleEnv.pi / 180) = 0 := by
      simp only [sampleEnv] at h0 ⊢
      rw [if_neg h0]
    have hs : sampleEnv.sin (rot * sampleEnv.pi / 180) = 1 := by
      simp only [sampleEnv] at h0 ⊢
      rw [if_neg h0]
    rw [hc, hs] at hy1 hy2
    simp only [abs_one, abs_zero, mul_one, mul_zero, zero_add, add_zero] at hy1 hy2
    by_cases hy : (getRotatedBBox sampleEnv x y 3000 (88 / 5) rot).y1 < 20
    · exact Or.inl (Or.inl (Or.inr hy))
    · refine Or.inr ?_
      rw [hy1] at hy
      rw [hy2]
      norm_num at hy ⊢
      linarith

/-- Under the sample runtime the first candidate of the small item, from random index 0. -/
theorem smallItem_first_candidate :
    candidate sampleEnv smallItem (0 + 1 / 4) (startRadius + spiralTightness) 0
      = { x := 45021 / 35, y := 1000, rotationDeg := -30,
          bbox := { x1 := 44713 / 35, y1 := 1989 / 2, x2 := 45329 / 35, y2 := 2011 / 2 },
          rng := 4 } := by
  simp only [candidate, sampleEnv, smallItem, startRadius, spiralTightness, center, canvasSize,
    getRotatedBBox, rotatedCorners, rotate, corners, mathMin, mathMax, List.map, List.foldl]
  norm_num

/-- The loop stops in the iteration whose candidate is accepted. -/
theorem spiral_succ_of_accepted (env : Env) (item : Item) (placedBoxes : List BBox)
    (fuel : Nat) (angle radius : ℚ) (rng i : Nat)
    (h : accepted placedBoxes
      (candidate env item (angle + 1 / 4) (radius + spiralTightness) rng) = true) :
    spiral env item placedBoxes (fuel + 1) angle radius rng i
      = { box := some (candidate env item (angle + 1 / 4) (radius + spiralTightness) rng).bbox,
          rng := (candidate env item (angle + 1 / 4) (radius + spiralTightness) rng).rng,
          tries := i + 1 } := by
  simp only [accepted, Bool.and_eq_true, Bool.not_eq_true'] at h
  simp only [spiral]
  rw [if_neg (by rw [h.1]; exact Bool.false_ne_true), if_pos (by rw [h.2]; rfl)]

/-- Under the sample runtime the first candidate of the small item is accepted next to the
box of a winner whose text measures 90 pixels. -/
theorem smallItem_accepted_at_once :
    spiral sampleEnv smallItem [winnerBox 90] 800 0 startRadius 0 0
      = { box := some { x1 := 44713 / 35, y1 := 1989 / 2, x2 := 45329 / 35, y2 := 2011 / 2 },
          rng := 4, tries := 1 } := by
  have hacc : accepted [winnerBox 90]
      (candidate sampleEnv smallItem (0 + 1 / 4) (startRadius + spiralTightness) 0) = true := by
    rw [smallItem_first_candidate]
    simp only [accepted, outOfCanvas, checkCollision, expand, hits, winnerBox, winnerFontSize,
      center, canvasSize, List.any_cons, List.any_nil]
    norm_num
  have h := spiral_succ_of_accepted sampleEnv smallItem [winnerBox 90] 799 0 startRadius 0 0 hacc
  rw [smallItem_first_candidate] at h
  exact h

/-- C11. For every field item, every list of placed boxes and every runtime (random draws
included): the attempt loop computes at most 800 candidates; it stops at the first accepted
one, whose box is appended to `placedBoxes` as the one new element; when all 800 candidates
are rejected the loop ends after 800 iterations, no box is returned and `placedBoxes` is left
as it was; the attempts of the item, between 1 and 800, are added to the count of the pass,
which goes on with the remaining items; and a render pass over the `n` field items of a ranked
list is a total function that makes at least `n` and at most `800 * n` attempts. -/
theorem C11_spiral_search_is_bounded (env : Env) (st : PassState) (item : Item)
    (rest : List Item) (scores : List RankedEntry) :
    (candidates env item 800 0 startRadius st.rng).length = 800
      ∧ (spiral env item st.placedBoxes 800 0 startRadius st.rng 0).box
          = ((candidates env item 800 0 startRadius st.rng).find?
              (accepted st.placedBoxes)).map Candidate.bbox
      ∧ (spiral env item st.placedBoxes 800 0 startRadius st.rng 0).tries
          = min ((candidates env item 800 0 startRadius st.rng).findIdx
              (accepted st.placedBoxes) + 1) 800
      ∧ 1 ≤ (spiral env item st.placedBoxes 800 0 startRadius st.rng 0).tries
      ∧ (spiral env item st.placedBoxes 800 0 startRadius st.rng 0).tries ≤ 800
      ∧ (∀ b : BBox, (spiral env item st.placedBoxes 800 0 startRadius st.rng 0).box = some b →
          (placeItem env st item).placedBoxes = st.placedBoxes ++ [b])
      ∧ ((∀ c ∈ candidates env item 800 0 startRadius st.rng,
            accepted st.placedBoxes c = false) →
          (spiral env item st.placedBoxes 800 0 startRadius st.rng 0).box = none
            ∧ (spiral env item st.placedBoxes 800 0 startRadius st.rng 0).tries = 800
            ∧ (placeItem env st item).placedBoxes = st.placedBoxes)
      ∧ (placeItem env st item).attempts
          = st.attempts + (spiral env item st.placedBoxes 800 0 startRadius st.rng 0).tries
      ∧ (item :: rest).foldl (placeItem env) st = rest.foldl (placeItem env) (placeItem env st item)
      ∧ scores.tail.length ≤ (renderPass env scores).attempts
      ∧ (renderPass env scores).attempts ≤ 800 * scores.tail.length := by
  obtain ⟨hbox, htries⟩ := spiral_eq_find env item st.placedBoxes 800 0 startRadius st.rng 0
  obtain ⟨t1, t2⟩ := spiral_tries_bounds env item st.placedBoxes st.rng
  obtain ⟨r1, r2⟩ := renderPass_attempts env scores
  refine ⟨length_candidates env item 800 0 startRadius st.rng, hbox, by rw [htries]; omega,
    t1, t2, ?_, ?_, placeItem_attempts env st item, rfl, r1, r2⟩
  · intro b hb
    rw [placeItem_placedBoxes, hb]
  · intro hall
    have hnone : (spiral env item st.placedBoxes 800 0 startRadius st.rng 0).box = none := by
      rw [hbox, Option.map_eq_none', List.find?_eq_none]
      intro c hc
      rw [hall c hc]
      exact Bool.false_ne_true
    refine ⟨hnone, ?_, by rw [placeItem_placedBoxes, hnone]⟩
    rw [htries, List.findIdx_eq_length_of_false hall, length_candidates]
    omega

/-- C11 at two concrete inputs under the sample runtime. The first candidate of the small
item is accepted, so the loop stops after one attempt and `placedBoxes` gains that one box.
All 800 candidates of the wide item are rejected, so after 800 attempts the item is dropped
and `placedBoxes` still holds only the box of the winner. -/
theorem C11_witness_accept_and_drop :
    ((spiral sampleEnv smallItem [winnerBox 90] 800 0 startRadius 0 0).box
        = some { x1 := 44713 / 35, y1 := 1989 / 2, x2 := 45329 / 35, y2 := 2011 / 2 }
      ∧ (placeItem sampleEnv { placedBoxes := [winnerBox 90], rng := 0, attempts := 0 }
          smallItem).placedBoxes
        = [winnerBox 90]
            ++ [{ x1 := 44713 / 35, y1 := 1989 / 2, x2 := 45329 / 35, y2 := 2011 / 2 }])
      ∧ (∀ c ∈ candidates sampleEnv wideItem 800 0 startRadius 0,
          accepted [winnerBox 90] c = false)
      ∧ (spiral sampleEnv wideItem [winnerBox 90] 800 0 startRadius 0 0).box = none
      ∧ (spiral sampleEnv wideItem [winnerBox 90] 800 0 startRadius 0 0).tries = 800
      ∧ (placeItem sampleEnv { placedBoxes := [winnerBox 90], rng := 0, attempts := 0 }
          wideItem).placedBoxes = [winnerBox 90] :=
  have hsome : (spiral sampleEnv smallItem [winnerBox 90] 800 0 startRadius 0 0).box
      = some { x1 := 44713 / 35, y1 := 1989 / 2, x2 := 45329 / 35, y2 := 2011 / 2 } := by
    rw [smallItem_accepted_at_once]
  have hall : ∀ c ∈ candidates sampleEnv wideItem 800 0 startRadius 0,
      accepted [winnerBox 90] c = false := by
    intro c hc
    obtain ⟨x, y, rot, hb⟩ := mem_candidates_bbox sampleEnv wideItem 800 0 startRadius 0 c hc
    simp only [accepted, hb, wideItem_out_of_canvas, Bool.not_true, Bool.false_and]
  ⟨⟨hsome,
      (C11_spiral_search_is_bounded sampleEnv
        { placedBoxes := [winnerBox 90], rng := 0, attempts := 0 } smallItem [] []).2.2.2.2.2.1
        _ hsome⟩,
    hall,
    (C11_spiral_search_is_bounded sampleEnv
      { placedBoxes := [winnerBox 90], rng := 0, attempts := 0 } wideItem [] []).2.2.2.2.2.2.1
      hall⟩

end WordCloud
